import Mathlib

/-!
Verification of the OpenClaw agent-invocation pipeline against its
natural-language specification.

The development shallowly embeds the relevant TypeScript sources:

* `src/media/parse.ts` — the `MEDIA:` token micro-parser (`splitMediaFromOutput`);
* the command auto-reply reducer (`runCommandReply`): structural-prefix
  normalization, prompt-echo suppression, the fallback notice, the
  non-zero-exit error payload, the forced `--mode rpc` argv rewrite, and the
  tool-result aggregation state machine;
* `src/auto-reply/reply/abort.ts` — the fast-abort handshake over the
  persisted session store and the transient abort memory;
* `src/cron/service/store.ts` — `ensureLoaded` / `persist` with mtime-based
  reload and on-load normalization.

JavaScript strings are modelled as `List Char`; regex-based rewrites from the
source are implemented as explicit character-list scanners mirroring the
regexes.  Helpers that live in repository files not available here
(`tool-meta.ts`, `markdown/fences.ts`, `cron/service/normalize.ts`,
`cron/payload-migration.ts`, the session/cron file IO) are modelled from the
spec and marked as such in their doc comments; file IO is modelled by
explicit disk values threaded through the functions.
-/

namespace OpenClaw

/-! ### JavaScript string primitives on `List Char` -/

/-- JS `\s` whitespace class (the subset relevant to this code base:
space, tab, newline, carriage return, form feed, vertical tab). -/
def isJsWs (c : Char) : Bool :=
  c = ' ' || c = '\t' || c = '\n' || c = '\r' || c = '\x0c' || c = '\x0b'

/-- JS regex `\w` word character: ASCII letter, digit or underscore. -/
def isWordChar (c : Char) : Bool :=
  ('a' ≤ c && c ≤ 'z') || ('A' ≤ c && c ≤ 'Z') || ('0' ≤ c && c ≤ '9') || c = '_'

/-- `String.prototype.trimStart` (over the `\s` class above). -/
def jsTrimStart (s : List Char) : List Char := s.dropWhile isJsWs

/-- `String.prototype.trimEnd`. -/
def jsTrimEnd (s : List Char) : List Char := (s.reverse.dropWhile isJsWs).reverse

/-- `String.prototype.trim`. -/
def jsTrim (s : List Char) : List Char := jsTrimEnd (jsTrimStart s)

/-- ASCII `String.prototype.toLowerCase`. -/
def jsToLower (s : List Char) : List Char := s.map Char.toLower

/-- `str.split("\n")` (splitting on a single newline character). -/
def splitLines (s : List Char) : List (List Char) :=
  match s with
  | [] => [[]]
  | c :: rest =>
    let tail := splitLines rest
    if c = '\n' then [] :: tail
    else
      match tail with
      | [] => [[c]]
      | l :: ls => (c :: l) :: ls

/-- `lines.join("\n")`. -/
def joinLines (ls : List (List Char)) : List Char :=
  match ls with
  | [] => []
  | [l] => l
  | l :: rest => l ++ '\n' :: joinLines rest

theorem dropWhile_length_le (p : Char → Bool) (l : List Char) :
    (l.dropWhile p).length ≤ l.length := by
  induction l with
  | nil => simp
  | cons c cs ih =>
    simp only [List.dropWhile]
    split
    · exact Nat.le_succ_of_le ih
    · simp

/-- Scanner for `split(/\s+/).filter(Boolean)`; `cur` is the current token
accumulated in reverse. -/
def splitWsAux (cur : List Char) : List Char → List (List Char)
  | [] => if cur = [] then [] else [cur.reverse]
  | c :: cs =>
    if isJsWs c then
      if cur = [] then splitWsAux [] cs else cur.reverse :: splitWsAux [] cs
    else splitWsAux (c :: cur) cs

/-- `payload.split(/\s+/).filter(Boolean)`: maximal runs of non-whitespace. -/
def splitWs (s : List Char) : List (List Char) := splitWsAux [] s

/-- `list.join(" ")`. -/
def joinSpace (ls : List (List Char)) : List Char :=
  match ls with
  | [] => []
  | [l] => l
  | l :: rest => l ++ ' ' :: joinSpace rest

/-! ### The forced RPC mode flag (`runCommandReply`, `rpcArgvForRun`)

Embeds the IIFE at the call site of `runPiRpc`:

```
const copy = [...finalArgv];
copy.splice(rpcPromptIndex, 1);
const modeIdx = copy.indexOf("--mode");
if (modeIdx >= 0 && copy[modeIdx + 1]) {
  copy.splice(modeIdx, 2, "--mode", "rpc");
} else if (!copy.includes("--mode")) {
  copy.splice(copy.length - 1, 0, "--mode", "rpc");
}
return copy;
```
-/

/-- JS string truthiness for an optional array element (`copy[i]` is falsy
when the index is out of range or holds the empty string). -/
def optStrTruthy : Option String → Bool
  | some s => s ≠ ""
  | none => false

/-- `copy.splice(copy.length - 1, 0, "--mode", "rpc")`: insert the pair before
the last element (at index 0 when the array is empty, since JS clamps the
negative start index to 0). -/
def spliceInsertBeforeLast (l : List String) (pair : List String) : List String :=
  if l = [] then pair
  else l.take (l.length - 1) ++ pair ++ l.drop (l.length - 1)

/-- The argv rewrite applied to the already de-prompted argv `copy`
(mirrors the body of `rpcArgvForRun` after the `splice(rpcPromptIndex, 1)`). -/
def forceRpcMode (copy : List String) : List String :=
  match copy.findIdx? (· = "--mode") with
  | some i =>
    if optStrTruthy copy[i+1]? then
      copy.take i ++ ["--mode", "rpc"] ++ copy.drop (i + 2)
    else
      copy
  | none => spliceInsertBeforeLast copy ["--mode", "rpc"]

/-- `copy.splice(rpcPromptIndex, 1)` (JS removes nothing when the index is
out of range). -/
def spliceRemoveAt (l : List String) (i : Nat) : List String :=
  l.take i ++ l.drop (i + 1)

/-- `rpcArgvForRun`: drop the prompt argument, then force `--mode rpc`. -/
def rpcArgvForRun (finalArgv : List String) (rpcPromptIndex : Nat) : List String :=
  forceRpcMode (spliceRemoveAt finalArgv rpcPromptIndex)

/-- A `--mode` flag that is present with no following truthy value
(the configuration under which `rpcArgvForRun` leaves argv unchanged). -/
def hasModeSansValue (l : List String) : Bool :=
  match l.findIdx? (· = "--mode") with
  | some i => !optStrTruthy l[i+1]?
  | none => false

/-! ### `src/media/parse.ts` — the `MEDIA:` token micro-parser -/

/-- Space or tab (the `[ \t]` class used by the cleanup regexes). -/
def isSpTab (c : Char) : Bool := c = ' ' || c = '\t'

/-- State of a space/tab run while scanning for `/[ \t]{2,}/`:
`none` outside a run, `some (inl c)` after exactly one run character `c`,
`some (inr ())` inside a run of length at least two. -/
def flushRun2 : Option (Char ⊕ Unit) → List Char
  | none => []
  | some (Sum.inl c) => [c]
  | some (Sum.inr _) => [' ']

/-- Scanner for `raw.replace(/[ \t]{2,}/g, " ")`. -/
def collapseSpTab2Aux (st : Option (Char ⊕ Unit)) : List Char → List Char
  | [] => flushRun2 st
  | c :: cs =>
    if isSpTab c then
      match st with
      | none => collapseSpTab2Aux (some (Sum.inl c)) cs
      | some _ => collapseSpTab2Aux (some (Sum.inr ())) cs
    else flushRun2 st ++ c :: collapseSpTab2Aux none cs

/-- `raw.replace(/[ \t]{2,}/g, " ")`: collapse runs of two or more
spaces/tabs to a single space; a lone space or tab is kept as-is. -/
def collapseSpTab2 (s : List Char) : List Char := collapseSpTab2Aux none s

/-- Scanner for `raw.replace(/[ \t]+/g, " ")`; the flag records an open run. -/
def collapseSpTab1Aux (inRun : Bool) : List Char → List Char
  | [] => if inRun then [' '] else []
  | c :: cs =>
    if isSpTab c then collapseSpTab1Aux true cs
    else (if inRun then [' '] else []) ++ c :: collapseSpTab1Aux false cs

/-- `raw.replace(/[ \t]+/g, " ")`: every run of spaces/tabs becomes one space. -/
def collapseSpTab1 (s : List Char) : List Char := collapseSpTab1Aux false s

/-- Scanner for `raw.replace(/\n{2,}/g, "\n")`. -/
def collapseNlAux (inRun : Bool) : List Char → List Char
  | [] => if inRun then ['\n'] else []
  | c :: cs =>
    if c = '\n' then collapseNlAux true cs
    else (if inRun then ['\n'] else []) ++ c :: collapseNlAux false cs

/-- `raw.replace(/\n{2,}/g, "\n")`: runs of newlines become one newline
(a single newline is unchanged). -/
def collapseNewlines (s : List Char) : List Char := collapseNlAux false s

/-- Scanner for `raw.replace(/[ \t]+\n/g, "\n")`; `pending` holds the
current space/tab run in reverse, dropped when a newline follows. -/
def stripWsBeforeNlAux (pending : List Char) : List Char → List Char
  | [] => pending.reverse
  | c :: cs =>
    if isSpTab c then stripWsBeforeNlAux (c :: pending) cs
    else if c = '\n' then '\n' :: stripWsBeforeNlAux [] cs
    else pending.reverse ++ c :: stripWsBeforeNlAux [] cs

/-- `raw.replace(/[ \t]+\n/g, "\n")`: delete space/tab runs that sit directly
before a newline. -/
def stripWsBeforeNl (s : List Char) : List Char := stripWsBeforeNlAux [] s

/-- `normalizeMediaSource`: strip a leading `file://` scheme. -/
def normalizeMediaSource (src : List Char) : List Char :=
  if "file://".data.isPrefixOf src then src.drop 7 else src

/-- Leading wrapper characters stripped by `cleanCandidate`
(`/^[`"'[{(]+/`). -/
def isLeadWrap (c : Char) : Bool :=
  c = '`' || c = '"' || c = '\'' || c = '[' || c = '{' || c = '('

/-- Trailing wrapper characters stripped by `cleanCandidate`
(`/[`"'\\})\],]+$/`). -/
def isTrailWrap (c : Char) : Bool :=
  c = '`' || c = '"' || c = '\'' || c = '\\' || c = '}' || c = ')' || c = ']' || c = ','

/-- `cleanCandidate`: strip a leading run of wrapper characters and a
trailing run of closing wrapper characters. -/
def cleanCandidate (raw : List Char) : List Char :=
  ((raw.dropWhile isLeadWrap).reverse.dropWhile isTrailWrap).reverse

/-- `isValidMedia`: non-empty, at most 1024 characters, no whitespace, and
either an `http(s)://` URL (case-insensitive) or a `/`- or `./`-prefixed
path. -/
def isValidMedia (candidate : List Char) : Bool :=
  candidate ≠ [] &&
  !(candidate.length > 1024) &&
  !(candidate.any isJsWs) &&
  ("http://".data.isPrefixOf (jsToLower candidate) ||
   "https://".data.isPrefixOf (jsToLower candidate) ||
   "/".data.isPrefixOf candidate ||
   "./".data.isPrefixOf candidate)

/-- The fully cleaned form of one whitespace-delimited payload part. -/
def mediaCandidate (part : List Char) : List Char :=
  normalizeMediaSource (cleanCandidate part)

/-- Word boundary `\b` immediately before the `M` of `MEDIA:` (which is a
word character): satisfied at the line start or after a non-word character. -/
def boundaryOk : Option Char → Bool
  | none => true
  | some c => !isWordChar c

/-- Does `MEDIA:` (case-insensitive, per the `i` flag) start here with at
least one character after the colon (required by the `[^\n]+` group)? -/
def isMediaAt (rest : List Char) : Bool :=
  jsToLower (rest.take 6) = "media:".data && rest.length > 6

/-- The captured payload of `/\bMEDIA:\s*`?([^\n]+)`?/` given the text after
the colon: greedy `\s*` (backing off one character when it would exhaust the
line), an optional backtick consumed only when a character remains, then
everything to the end of the line.  Because `[^\n]+` is greedy the capture
always extends to the end of the line, so a line has at most one match. -/
def mediaPayload (afterColon : List Char) : List Char :=
  let ws := (afterColon.takeWhile isJsWs).length
  if ws = afterColon.length then afterColon.drop (ws - 1)
  else
    match afterColon.drop ws with
    | '`' :: d :: ds => d :: ds
    | other => other

/-- Scan a line for the first `MEDIA:` match; returns the text before the
match and the captured payload. -/
def findMediaToken (acc : List Char) (prev : Option Char) (rest : List Char) :
    Option (List Char × List Char) :=
  if boundaryOk prev && isMediaAt rest then
    some (acc.reverse, mediaPayload (rest.drop 6))
  else
    match rest with
    | [] => none
    | c :: cs => findMediaToken (c :: acc) (some c) cs

/-- Classify the payload parts of one match: valid candidates are collected
(in their cleaned form) and invalid parts are kept verbatim, preserving
order. -/
def classifyParts : List (List Char) → List (List Char) × List (List Char)
  | [] => ([], [])
  | p :: ps =>
    let rest := classifyParts ps
    if isValidMedia (mediaCandidate p) then (mediaCandidate p :: rest.1, rest.2)
    else (rest.1, p :: rest.2)

/-- Result of processing one line of the input. -/
structure LineOut where
  kept : List (List Char)
  media : List (List Char)
  found : Bool
deriving Repr, DecidableEq

/-- The per-line body of the extraction loop of `splitMediaFromOutput`: if
the line has a `MEDIA:` match, valid candidates are extracted and the line is
rebuilt from the text before the match plus — only when the line yielded a
valid candidate — the invalid parts; the rebuilt line is collapsed and
trimmed and dropped when empty. -/
def processMediaLine (line : List Char) : LineOut :=
  match findMediaToken [] none line with
  | none => ⟨[line], [], false⟩
  | some (pre, payload) =>
    let cp := classifyParts (splitWs payload)
    let withInv := if cp.1 ≠ [] && cp.2 ≠ [] then joinSpace cp.2 else []
    let cleanedLine := jsTrim (collapseSpTab2 (pre ++ withInv))
    ⟨if cleanedLine ≠ [] then [cleanedLine] else [], cp.1, true⟩

/-- Modelled from the spec: `parseFenceSpans` (src/markdown/fences.ts is not
under src/).  Fenced code blocks are delimited by lines whose trimmed form
starts with three backticks; a fence covers its opening line through its
closing line (or the end of the input when unclosed), and
`splitMediaFromOutput` consults the span at each line's start offset, so the
model returns one flag per line. -/
def fenceFlagsOfLines (lines : List (List Char)) : List Bool :=
  go false lines
where
  go (inFence : Bool) : List (List Char) → List Bool
    | [] => []
    | l :: ls =>
      if "```".data.isPrefixOf (jsTrimStart l) then
        true :: go (!inFence) ls
      else
        inFence :: go inFence ls

/-- The case-insensitive `[[audio_as_voice]]` tag. -/
def audioTag : List Char := "[[audio_as_voice]]".data

/-- Boolean infix test: does `pat` occur as a contiguous subsequence of `s`? -/
def hasSeq (pat : List Char) : List Char → Bool
  | [] => pat.isEmpty
  | c :: cs => pat.isPrefixOf (c :: cs) || hasSeq pat cs

/-- `AUDIO_AS_VOICE_TEST_RE.test(text)`. -/
def audioTagFound (s : List Char) : Bool :=
  hasSeq audioTag (jsToLower s)

/-- Fuel-driven scanner for the audio-tag removal; every step consumes at
least one character, so fuel equal to the input length never runs out. -/
def removeAudioTagsF : Nat → List Char → List Char
  | _, [] => []
  | 0, s => s
  | fuel + 1, c :: cs =>
    if jsToLower ((c :: cs).take 18) = audioTag then
      removeAudioTagsF fuel (cs.drop 17)
    else c :: removeAudioTagsF fuel cs

/-- `text.replace(AUDIO_AS_VOICE_RE, "")`: remove every (non-overlapping,
case-insensitive) occurrence of the tag. -/
def removeAudioTags (s : List Char) : List Char :=
  removeAudioTagsF s.length s

/-- The result shape of `splitMediaFromOutput`; absent JS object keys are
`none`. -/
structure MediaSplit where
  text : String
  mediaUrls : Option (List String) := none
  mediaUrl : Option String := none
  audioAsVoice : Option Bool := none
deriving Repr, DecidableEq

/-- The per-line pass of `splitMediaFromOutput`: fence-skipped lines are kept
verbatim, other lines go through `processMediaLine`. -/
def mediaLineOuts (trimmedRaw : List Char) : List LineOut :=
  let lines := splitLines trimmedRaw
  (lines.zip (fenceFlagsOfLines lines)).map
    (fun lf => if lf.2 then (⟨[lf.1], [], false⟩ : LineOut) else processMediaLine lf.1)

/-- The ordered list of extracted media candidates of one input (the `media`
array accumulated across lines). -/
def extractedMedia (raw : String) : List (List Char) :=
  let trimmedRaw := jsTrimEnd raw.data
  if jsTrim trimmedRaw = [] then []
  else ((mediaLineOuts trimmedRaw).map LineOut.media).flatten

/-- `splitMediaFromOutput` (src/media/parse.ts): trim the end, split into
lines, skip lines inside fenced code blocks, extract and validate `MEDIA:`
candidates per line, rejoin and collapse whitespace, then detect and strip
the `[[audio_as_voice]]` tag. -/
def splitMediaFromOutput (raw : String) : MediaSplit :=
  let trimmedRaw := jsTrimEnd raw.data
  if jsTrim trimmedRaw = [] then { text := "" }
  else
    let outs := mediaLineOuts trimmedRaw
    let keptLines := (outs.map LineOut.kept).flatten
    let media := (outs.map LineOut.media).flatten
    let found := outs.any LineOut.found
    let cleanedText0 :=
      jsTrim (collapseNewlines (collapseSpTab2 (stripWsBeforeNl (joinLines keptLines))))
    let hasAudio := audioTagFound cleanedText0
    let cleanedText :=
      if hasAudio then
        jsTrim (collapseNewlines (collapseSpTab1 (removeAudioTags cleanedText0)))
      else cleanedText0
    if media = [] then
      { text := ⟨if found || hasAudio then cleanedText else trimmedRaw⟩,
        audioAsVoice := if hasAudio then some true else none }
    else
      { text := ⟨cleanedText⟩,
        mediaUrls := some (media.map String.mk),
        mediaUrl := (media.head?).map String.mk,
        audioAsVoice := if hasAudio then some true else none }

/-! ### `runCommandReply` — structural-prefix stripping and echo normalization

```
function stripStructuralPrefixes(text: string): string {
  return text
    .replace(/\[[^\]]+\]\s*/g, "")
    .replace(/^[ \t]*[A-Za-z0-9+()\-_. ]+:\s*/gm, "")
    .replace(/\s+/g, " ")
    .trim();
}
```
-/

/-- Fuel-driven scanner for the bracket-segment removal; every step consumes
at least one character, so fuel equal to the input length never runs out. -/
def stripBracketsF : Nat → List Char → List Char
  | _, [] => []
  | 0, s => s
  | fuel + 1, c :: cs =>
    if c = '[' then
      match cs.dropWhile (· ≠ ']') with
      | ']' :: after =>
        if cs.takeWhile (· ≠ ']') ≠ [] then
          stripBracketsF fuel (after.dropWhile isJsWs)
        else '[' :: stripBracketsF fuel cs
      | _ => '[' :: stripBracketsF fuel cs
    else c :: stripBracketsF fuel cs

/-- `text.replace(/\[[^\]]+\]\s*/g, "")`: remove bracketed segments (at least
one non-`]` character inside) together with trailing whitespace. -/
def stripBrackets (s : List Char) : List Char :=
  stripBracketsF s.length s

/-- The character class `[A-Za-z0-9+()\-_. ]` of the line-header regex. -/
def isHdrChar (c : Char) : Bool :=
  ('a' ≤ c && c ≤ 'z') || ('A' ≤ c && c ≤ 'Z') || ('0' ≤ c && c ≤ '9') ||
  c = '+' || c = '(' || c = ')' || c = '-' || c = '_' || c = '.' || c = ' '

/-- Header-class character or tab: the characters the regex can consume
before the colon. -/
def hdrOrTab (c : Char) : Bool := isHdrChar c || c = '\t'

/-- Whether the run `u` before the colon splits as `[ \t]*` then at least one
class character: after the maximal space/tab prefix no tab may remain — or,
for an all-space/tab run, it must end in a space (a class member). -/
def hdrOk (u : List Char) : Bool :=
  if u.dropWhile isSpTab ≠ [] then !((u.dropWhile isSpTab).contains '\t')
  else u ≠ [] && u.getLast? = some ' '

/-- Try `/^[ \t]*[A-Za-z0-9+()\-_. ]+:\s*/` at a line start.  On success,
returns the remaining text after the greedy `\s*` together with whether that
consumption ended on a newline (so the scan resumes at a line start). -/
def matchHdr (s : List Char) : Option (List Char × Bool) :=
  if (s.dropWhile hdrOrTab).head? = some ':' && hdrOk (s.takeWhile hdrOrTab) then
    some ((s.dropWhile hdrOrTab).tail.dropWhile isJsWs,
      ((s.dropWhile hdrOrTab).tail.takeWhile isJsWs) ≠ [] &&
        ((s.dropWhile hdrOrTab).tail.takeWhile isJsWs).getLast? = some '\n')
  else none

/-- Fuel-driven global multiline scan for the line-header regex: at a line
start the header match is attempted (resuming at the match end, which is
itself a line start only when the consumed `\s*` ended on a newline);
elsewhere characters are copied until the next line start.  A successful
match consumes at least the colon and a copy step consumes one character, so
fuel equal to the input length never runs out. -/
def stripHdrGoF : Nat → Bool → List Char → List Char
  | _, _, [] => []
  | 0, _, s => s
  | fuel + 1, lineStart, c :: cs =>
    if lineStart then
      match matchHdr (c :: cs) with
      | some (rest, nl) => stripHdrGoF fuel nl rest
      | none => c :: stripHdrGoF fuel (c = '\n') cs
    else c :: stripHdrGoF fuel (c = '\n') cs

/-- `text.replace(/^[ \t]*[A-Za-z0-9+()\-_. ]+:\s*/gm, "")`. -/
def stripHdrLines (s : List Char) : List Char := stripHdrGoF s.length true s

/-- Scanner for `text.replace(/\s+/g, " ")`. -/
def collapseWsAux (inRun : Bool) : List Char → List Char
  | [] => if inRun then [' '] else []
  | c :: cs =>
    if isJsWs c then collapseWsAux true cs
    else (if inRun then [' '] else []) ++ c :: collapseWsAux false cs

/-- `text.replace(/\s+/g, " ")`: every whitespace run becomes one space. -/
def collapseWs (s : List Char) : List Char := collapseWsAux false s

/-- `stripStructuralPrefixes` from the command-reply module. -/
def stripStructuralPrefixes (text : List Char) : List Char :=
  jsTrim (collapseWs (stripHdrLines (stripBrackets text)))

/-- The reducer's echo normalization:
`normalize = (s) => stripStructuralPrefixes((s ?? "").trim()).toLowerCase()`. -/
def normalizeEcho (s : Option String) : List Char :=
  jsToLower (stripStructuralPrefixes (jsTrim (s.getD "").data))

/-! ### `runCommandReply` — the tool-result aggregation state machine

Embeds the `pendingToolName` / `pendingMetas` / `pendingTimer` closure state
of `runCommandReply` together with `flushPendingTool` and the `ToolResult`
branch of the `onEvent` callback.  Real time is not modelled: the debounce
timer is recorded as an armed/disarmed flag and never fires on its own, which
corresponds to event sequences delivered within the debounce window.  A flush
is recorded as the aggregate pair (tool name, metas) handed to
`formatToolAggregate` / `onPartialReply`. -/

/-- The reducer's aggregation state; `flushes` records emitted aggregates. -/
structure ToolAggSt where
  pendingToolName : Option String
  pendingMetas : List String
  timerArmed : Bool
  flushes : List (Option String × List String)
deriving Repr, DecidableEq

/-- The initial closure state of one run. -/
def toolAggInit : ToolAggSt := ⟨none, [], false, []⟩

/-- `flushPendingTool`: a no-op without a live partial-reply callback or with
nothing pending; otherwise emits the aggregate, clears the pending state and
cancels the debounce timer. -/
def flushPendingTool (live : Bool) (s : ToolAggSt) : ToolAggSt :=
  if !live then s
  else if !optStrTruthy s.pendingToolName && s.pendingMetas.length = 0 then s
  else
    { pendingToolName := none, pendingMetas := [], timerArmed := false,
      flushes := s.flushes ++ [(s.pendingToolName, s.pendingMetas)] }

/-- The `ToolResult` branch of `onEvent`: flush on a tool-name change, adopt
the tool name when none is pending, append a truthy meta, then either flush
on reaching the count threshold (returning early) or re-arm the debounce
timer. -/
def onToolResult (live : Bool) (flushCount : Nat)
    (toolName meta : Option String) (s : ToolAggSt) : ToolAggSt :=
  let s1 :=
    if optStrTruthy s.pendingToolName && optStrTruthy toolName &&
        toolName ≠ s.pendingToolName then
      flushPendingTool live s
    else s
  let s2 :=
    if !optStrTruthy s1.pendingToolName then
      { s1 with pendingToolName := toolName }
    else s1
  let s3 :=
    if optStrTruthy meta then
      { s2 with pendingMetas := s2.pendingMetas ++ [meta.getD ""] }
    else s2
  if flushCount > 0 && s3.pendingMetas.length ≥ flushCount then
    flushPendingTool live s3
  else
    { s3 with timerArmed := true }

/-- One run over a sequence of `ToolResult` events `(toolName, meta)`,
ending with the `flushPendingTool()` call made after `runPiRpc` resolves. -/
def runToolResults (live : Bool) (flushCount : Nat)
    (events : List (Option String × Option String)) : ToolAggSt :=
  flushPendingTool live
    (events.foldl (fun s e => onToolResult live flushCount e.1 e.2 s) toolAggInit)

/-! ### `runCommandReply` — the post-run reducer

Embeds the value-level tail of `runCommandReply` (everything after the
`enqueue(run, ...)` await): reply-item construction from the parsed output,
fallback selection with prompt-echo suppression, the synthetic no-output
notice, the non-zero-exit and killed-before-completion error payloads, and
final payload assembly.  The JSON-line extractors (`stripRpcNoise`,
`extractRpcAssistantText`, `extractAssistantTextLoosely`) and the agent's
`parseOutput` are taken as inputs — the reducer consumes only their results —
and `shortenMeta` / `formatToolAggregate` (tool-meta.ts is not under src/)
are abstracted as function parameters.  Logging, timing metadata and
`fs.stat` are side effects outside the claims; file sizes are supplied by an
explicit `fileSize` oracle. -/

/-- `String.prototype.trim` at the `String` level. -/
def jsTrimS (s : String) : String := ⟨jsTrim s.data⟩

/-- One entry of `parsed.toolResults` after coercion of bare strings. -/
structure AgentToolResult where
  text : String := ""
  toolName : Option String := none
  meta : Option String := none
deriving Repr, DecidableEq

/-- `normalizeToolResults`: trim texts, blank tool names to `undefined`,
shorten truthy metas, drop empty texts. -/
def normalizeToolResults (shorten : String → String)
    (trs : List AgentToolResult) : List AgentToolResult :=
  (trs.map (fun tr =>
    { text := jsTrimS tr.text,
      toolName := match tr.toolName with
        | some t => if jsTrimS t ≠ "" then some (jsTrimS t) else none
        | none => none,
      meta := match tr.meta with
        | some m => if m ≠ "" then some (shorten m) else none
        | none => none })).filter (fun tr => tr.text ≠ "")

/-- One group of the verbose inline tool-result aggregation. -/
structure InlineAgg where
  toolName : Option String
  metas : List String
  previews : List String
deriving Repr, DecidableEq

/-- The `reduce` that groups consecutive normalized tool results by tool
name, collecting truthy metas and non-empty preview texts. -/
def inlineAggregate (trs : List AgentToolResult) : List InlineAgg :=
  trs.foldl (fun acc tr =>
    let metaAdd := match tr.meta with
      | some m => if m ≠ "" then [m] else []
      | none => []
    let prevAdd := if tr.text ≠ "" then [tr.text] else []
    match acc.getLast? with
    | some last =>
      if last.toolName = tr.toolName then
        acc.dropLast ++
          [{ last with metas := last.metas ++ metaAdd,
                       previews := last.previews ++ prevAdd }]
      else acc ++ [⟨tr.toolName, metaAdd, prevAdd⟩]
    | none => acc ++ [⟨tr.toolName, metaAdd, prevAdd⟩]) []

/-- `emojiForTool`. -/
def emojiForTool (tool : Option String) : String :=
  let t := jsToLower (tool.getD "").data
  if t = "bash".data || t = "shell".data then "💻"
  else if t = "read".data then "📄"
  else if t = "write".data then "✍️"
  else if t = "edit".data then "📝"
  else if t = "attach".data then "📎"
  else "🛠️"

/-- `text.replace(/^\[🛠️ [^\]]+\]\s*/, "")` (a single anchored replacement). -/
def stripToolTag (s : List Char) : List Char :=
  if "[🛠️ ".data.isPrefixOf s then
    let rest := s.drop "[🛠️ ".data.length
    if rest.takeWhile (· ≠ ']') ≠ [] then
      match rest.dropWhile (· ≠ ']') with
      | ']' :: after => after.dropWhile isJsWs
      | _ => s
    else s
  else s

/-- `formatPreview`: join preview texts, clip to 120 characters, wrap in
quotes. -/
def formatPreview (texts : List String) : String :=
  let joined := jsTrimS (String.intercalate " " texts)
  if joined = "" then ""
  else
    let clipped :=
      if joined.data.length > 120 then String.mk (joined.data.take 117) ++ "…"
      else joined
    " — “" ++ clipped ++ "”"

/-- A reply item before payload assembly (`{text, media}`). -/
structure ReplyItem where
  text : String
  media : Option (List String)
deriving Repr, DecidableEq

/-- Run a text through `splitMediaFromOutput` and build a reply item
(`mediaFound?.length ? mediaFound : undefined`). -/
def replyItemOf (x : String) : ReplyItem :=
  let sp := splitMediaFromOutput x
  { text := sp.text,
    media := match sp.mediaUrls with
      | some (u :: us) => some (u :: us)
      | _ => none }

/-- The `ReplyPayload` shape produced by the reducer. -/
structure ReplyPayloadL where
  text : Option String := none
  mediaUrl : Option String := none
  mediaUrls : Option (List String) := none
deriving Repr, DecidableEq

/-- The subset of `CommandReplyMeta` the claims are about. -/
structure ReduceMeta where
  exitCode : Option Int
  signal : Option String
  killed : Bool
deriving Repr, DecidableEq

/-- The reducer's result: the returned payload list plus metadata.  The
embedding is a total function: every run outcome maps to a payload list,
mirroring the source's conversion of subprocess failures into payloads
rather than exceptions. -/
structure ReduceOut where
  payloads : List ReplyPayloadL
  meta : ReduceMeta
deriving Repr, DecidableEq

/-- The run-derived inputs of the reducer tail. -/
structure ReduceIn where
  /-- `code` of the `RunResult` (`null` → `none`). -/
  code : Option Int
  /-- `signal` of the `RunResult`. -/
  signal : Option String
  /-- `killed` of the `RunResult`. -/
  killed : Bool
  /-- `extractRpcAssistantText(stdoutUsed)`. -/
  rpcAssistantText : Option String
  /-- `trimmed = stripRpcNoise(rawStdout)`. -/
  trimmed : String
  /-- `extractRpcAssistantText(trimmed)`. -/
  rpcFromTrimmed : Option String
  /-- `extractAssistantTextLoosely(trimmed)`. -/
  looseFromTrimmed : Option String
  /-- `parsed?.texts ?? []`. -/
  parsedTexts : List String
  /-- `parsed?.toolResults ?? []` with bare strings coerced. -/
  parsedToolResults : List AgentToolResult
  /-- `parsed?.meta?.extra?.summary`. -/
  metaSummary : Option String
  /-- `templatingCtx.Body`. -/
  body : Option String
  /-- `templatingCtx.BodyStripped`. -/
  bodyStripped : Option String
  /-- `verboseLevel === "on"`. -/
  verboseOn : Bool
  /-- whether `onPartialReply` was supplied. -/
  live : Bool
  /-- whether any partial payload was streamed during the run. -/
  streamedAny : Bool
  /-- `reply.mediaUrl`. -/
  configMediaUrl : Option String
  /-- `reply.mediaMaxMb`. -/
  mediaMaxMb : Option Nat
  /-- size oracle for `fs.stat` (`none` models a stat failure). -/
  fileSize : String → Option Nat

/-- `/^https?:\/\//i.test(url)`. -/
def isHttpUrl (url : String) : Bool :=
  "http://".data.isPrefixOf (jsToLower url.data) ||
  "https://".data.isPrefixOf (jsToLower url.data)

/-- The synthetic no-output notice
(`(command produced no output${meta ? `; ${meta}` : ""})`). -/
def noOutputText (metaSummary : Option String) : String :=
  "(command produced no output" ++
    (match metaSummary with
     | some m => if m ≠ "" then "; " ++ m else ""
     | none => "") ++ ")"

/-- The captured-output snippet of the non-zero-exit error payload
(`summarySource.slice(0, 500)` of `rpcAssistantText ?? trimmed`). -/
def exitSnippet (rpcAssistantText : Option String) (trimmed : String) : List Char :=
  (rpcAssistantText.getD trimmed).data.take 500

/-- The non-zero-exit error text: exit code, optional signal, and up to 500
characters of captured output. -/
def exitErrorText (code : Option Int) (signal : Option String)
    (rpcAssistantText : Option String) (trimmed : String) : String :=
  let summarySource := rpcAssistantText.getD trimmed
  let partialOut :=
    if summarySource ≠ "" then
      "\n\nOutput: " ++ String.mk (exitSnippet rpcAssistantText trimmed) ++
        (if summarySource.data.length > 500 then "..." else "")
    else ""
  "⚠️ Command exited with code " ++
    (match code with | some c => toString c | none => "unknown") ++
    (if optStrTruthy signal then " (" ++ signal.getD "" ++ ")" else "") ++
    partialOut

/-- The value-level tail of `runCommandReply` after the subprocess finishes. -/
def reduceCommandReply (shorten : String → String)
    (formatAgg : Option String → List String → String) (inp : ReduceIn) :
    ReduceOut :=
  let parsedTexts := (inp.parsedTexts.map jsTrimS).filter (· ≠ "")
  let parsedToolResults := normalizeToolResults shorten inp.parsedToolResults
  let hasParsedContent := parsedTexts ≠ [] || parsedToolResults ≠ []
  let includeInline := inp.verboseOn && !inp.live && parsedToolResults.length > 0
  let inlineItems : List ReplyItem :=
    if includeInline then
      (inlineAggregate parsedToolResults).map (fun agg =>
        replyItemOf (emojiForTool agg.toolName ++ " " ++
          String.mk (stripToolTag (formatAgg agg.toolName agg.metas).data) ++
          formatPreview agg.previews))
    else []
  let replyItems0 := inlineItems ++ parsedTexts.map replyItemOf
  let fallbackText :=
    ((inp.rpcAssistantText.or inp.rpcFromTrimmed).or inp.looseFromTrimmed).getD
      inp.trimmed
  let bodyNorm := normalizeEcho (inp.body.or inp.bodyStripped)
  let fallbackNorm := normalizeEcho (some fallbackText)
  let promptEcho := fallbackText ≠ "" &&
    (fallbackText = inp.body.getD "" || fallbackText = inp.bodyStripped.getD "" ||
     (bodyNorm.length > 0 && bodyNorm = fallbackNorm))
  let safeFallbackText : Option String :=
    if promptEcho then none else some fallbackText
  let replyItems1 :=
    if replyItems0 = [] && optStrTruthy safeFallbackText && !hasParsedContent then
      let sp := splitMediaFromOutput (safeFallbackText.getD "")
      if sp.text ≠ "" ||
          (match sp.mediaUrls with | some (_ :: _) => true | _ => false) then
        [(⟨sp.text,
           match sp.mediaUrls with
           | some (u :: us) => some (u :: us)
           | _ => none⟩ : ReplyItem)]
      else []
    else replyItems0
  let replyItems :=
    if replyItems1 = [] then [(⟨noOutputText inp.metaSummary, none⟩ : ReplyItem)]
    else replyItems1
  if inp.code.getD 0 ≠ 0 then
    ⟨[{ text := some (exitErrorText inp.code inp.signal inp.rpcAssistantText
          inp.trimmed) }],
     ⟨inp.code, inp.signal, inp.killed⟩⟩
  else if inp.killed && !optStrTruthy inp.signal then
    let errorText := "⚠️ Command was killed before completion (exit code " ++
      (match inp.code with | some c => toString c | none => "unknown") ++ ")"
    ⟨[{ text := some errorText }], ⟨inp.code, inp.signal, inp.killed⟩⟩
  else
    let payloads := replyItems.filterMap (fun item =>
      let mediaUrls0 := item.media.or
        (match inp.configMediaUrl with
         | some u => if u ≠ "" then some [u] else none
         | none => none)
      let mediaUrls : Option (List String) :=
        match mediaUrls0 with
        | some (u :: us) =>
          match inp.mediaMaxMb with
          | some cap =>
            if cap ≠ 0 then
              some ((u :: us).filter (fun url =>
                if isHttpUrl url then true
                else match inp.fileSize url with
                  | some sz => sz ≤ cap * 1024 * 1024
                  | none => true))
            else some (u :: us)
          | none => some (u :: us)
        | other => other
      if item.text ≠ "" ||
          (match mediaUrls with | some (_ :: _) => true | _ => false) then
        some { text := if item.text ≠ "" then some item.text else none,
               mediaUrl := match mediaUrls with | some (u :: _) => some u | _ => none,
               mediaUrls := mediaUrls }
      else none)
    ⟨if inp.streamedAny && inp.live then [] else payloads,
     ⟨inp.code, inp.signal, inp.killed⟩⟩

/-! ### `src/auto-reply/reply/abort.ts` — the fast-abort handshake

The persisted session store is modelled as an association list (JS object
keyed by session key), the process-lifetime `ABORT_MEMORY` map as an
association list of intent flags.  `parseAgentSessionKey` (routing code not
under src/) is abstracted as a `parseRest` function returning the legacy
"rest" component, and `abortEmbeddedPiRun` as a `liveAbort` oracle returning
whether a live run for the session id was found and signalled.  The trigger
parsing and authorization gate above the session-store section are not
modelled: the embedding starts from a recognized, authorized abort request. -/

/-- A persisted session entry. -/
structure SessionEntry where
  sessionId : Option String
  abortedLastRun : Bool
  updatedAt : Int
deriving Repr, DecidableEq

/-- JS `store[key] = entry`: replace the binding if present, append otherwise. -/
def objSet (st : List (String × SessionEntry)) (k : String) (e : SessionEntry) :
    List (String × SessionEntry) :=
  if st.any (·.1 = k) then st.map (fun p => if p.1 = k then (k, e) else p)
  else st ++ [(k, e)]

/-- `Map.prototype.set` on the abort-memory association list. -/
def mapSet (m : List (String × Bool)) (k : String) (v : Bool) :
    List (String × Bool) :=
  (k, v) :: m.eraseP (fun p => p.1 = k)

/-- `resolveSessionEntryForKey`: direct session-key lookup, falling back to
the legacy-key derivation (the truthy `rest` of the parsed session key). -/
def resolveSessionEntryForKey (parseRest : String → Option String)
    (store : Option (List (String × SessionEntry))) (sessionKey : Option String) :
    Option (SessionEntry × String) :=
  match store, sessionKey with
  | some st, some k =>
    if k = "" then none
    else
      match st.lookup k with
      | some e => some (e, k)
      | none =>
        match parseRest k with
        | some r =>
          if r ≠ "" then
            match st.lookup r with
            | some e => some (e, r)
            | none => none
          else none
        | none => none
  | _, _ => none

/-- Outcome of the fast-abort attempt: the reported flags, the (possibly
rewritten) persisted store, whether it was saved, and the transient memory. -/
structure AbortOut where
  handled : Bool
  aborted : Bool
  store : Option (List (String × SessionEntry))
  saved : Bool
  memory : List (String × Bool)
deriving Repr, DecidableEq

/-- The session-store section of `tryFastAbortFromMessage` (after trigger
recognition and authorization): resolve the target entry, signal a live run
when a session id is known, stamp and persist a resolved entry, or record
the intent in the transient memory. -/
def tryFastAbortCore (parseRest : String → Option String)
    (liveAbort : String → Bool) (now : Int)
    (store : Option (List (String × SessionEntry)))
    (memory : List (String × Bool)) (targetKey : Option String)
    (authFrom authTo : Option String) : AbortOut :=
  let abortKey := (targetKey.or authFrom).or authTo
  match targetKey with
  | some tk =>
    let res := resolveSessionEntryForKey parseRest store (some tk)
    let sessionId := res.bind (fun r => r.1.sessionId)
    let aborted := match sessionId with
      | some sid => if sid ≠ "" then liveAbort sid else false
      | none => false
    match res with
    | some (entry, key) =>
      let entry' := { entry with abortedLastRun := true, updatedAt := now }
      ⟨true, aborted, some (objSet (store.getD []) key entry'), true, memory⟩
    | none =>
      if optStrTruthy abortKey then
        ⟨true, aborted, store, false, mapSet memory (abortKey.getD "") true⟩
      else ⟨true, aborted, store, false, memory⟩
  | none =>
    if optStrTruthy abortKey then
      ⟨true, false, store, false, mapSet memory (abortKey.getD "") true⟩
    else ⟨true, false, store, false, memory⟩

/-! ### `src/cron/service/store.ts` — `ensureLoaded` and `persist`

The cron store file is modelled as an explicit disk value (mtime plus the
stored jobs); `loadCronStore`/`saveCronStore` (cron/store.ts is not under
src/) round-trip the job list.  The helpers from files not under src/ are
modelled from the spec and documented on each definition. -/

/-- A cron schedule variant (`at` a fixed instant, `every` interval, or a
cron expression with optional timezone). -/
inductive CronSchedule where
  | atTime (ts : Int)
  | every (amount : Int) (unit : String)
  | cronExpr (expr : String) (tz : Option String)
deriving Repr, DecidableEq

/-- A cron job payload: the current `systemEvent`/`agentTurn` variants plus
the legacy shape migrated on load. -/
inductive CronPayload where
  | legacy (data : String)
  | systemEvent (text : String)
  | agentTurn (message : String)
deriving Repr, DecidableEq

/-- Modelled from the spec: `migrateLegacyCronPayload`
(cron/payload-migration.ts is not under src/) migrates a legacy payload
shape in place to the current shape and reports whether it changed the
record; current shapes are left untouched. -/
def migrateLegacyCronPayload : CronPayload → Bool × CronPayload
  | .legacy d => (true, .systemEvent d)
  | p => (false, p)

/-- Modelled from the spec: `inferLegacyName` (cron/service/normalize.ts is
not under src/) infers a display name for a job with a missing/blank name
from the job's schedule and payload shape. -/
def inferLegacyName (schedule : CronSchedule) (payload : CronPayload) : String :=
  (match schedule with
   | .atTime _ => "one-shot"
   | .every _ _ => "interval"
   | .cronExpr _ _ => "cron") ++ " " ++
  (match payload with
   | .legacy _ => "job"
   | .systemEvent _ => "system event"
   | .agentTurn _ => "agent turn")

/-- Modelled from the spec: `normalizeOptionalText`
(cron/service/normalize.ts is not under src/) normalizes a blank description
to `undefined` and keeps non-blank text. -/
def normalizeOptionalText : Option String → Option String
  | some s => if jsTrimS s = "" then none else some s
  | none => none

/-- A cron job record. -/
structure CronJob where
  id : String
  name : Option String
  description : Option String
  enabled : Bool
  schedule : CronSchedule
  payload : CronPayload
  nextRunAtMs : Option Int
deriving Repr, DecidableEq

/-- The per-record normalization of the `ensureLoaded` load loop: a
missing/blank name is inferred (marking the record mutated), a present name
is trimmed (without marking), the description is normalized (marking when it
changed), and a legacy payload is migrated (marking). -/
def normalizeJob (j : CronJob) : CronJob × Bool :=
  let nameStep : Option String × Bool :=
    match j.name with
    | some n =>
      if jsTrimS n ≠ "" then (some (jsTrimS n), false)
      else (some (inferLegacyName j.schedule j.payload), true)
    | none => (some (inferLegacyName j.schedule j.payload), true)
  let desc := normalizeOptionalText j.description
  let payloadStep := migrateLegacyCronPayload j.payload
  ({ j with name := nameStep.1, description := desc, payload := payloadStep.2 },
   nameStep.2 || desc ≠ j.description || payloadStep.1)

/-- The in-memory cron store (`{version: 1, jobs}`). -/
structure CronStoreM where
  version : Nat
  jobs : List CronJob
deriving Repr, DecidableEq

/-- The cron store file: observed mtime (`none` models a stat failure) and
contents. -/
structure CronDisk where
  mtime : Option Int
  jobs : List CronJob
deriving Repr, DecidableEq

/-- The `CronServiceState` fields used by `ensureLoaded`/`persist`. -/
structure CronSrvState where
  store : Option CronStoreM
  storeLoadedAtMs : Option Int
  storeFileMtimeMs : Option Int
deriving Repr, DecidableEq

/-- Modelled from the spec: `recomputeNextRuns` (cron/service/jobs.ts is not
under src/) recomputes every job's next-run timestamp from its schedule
relative to the current time; the schedule evaluation is abstracted as the
`next` oracle, and no other field is touched. -/
def recomputeNextRuns (next : CronJob → Option Int) (s : CronStoreM) : CronStoreM :=
  { s with jobs := s.jobs.map (fun j => { j with nextRunAtMs := next j }) }

/-- `persist`: a no-op without a loaded store; otherwise rewrite the whole
store to disk and refresh the cached mtime from the written file
(`writeMtime` is the on-disk mtime produced by the write). -/
def persistStore (writeMtime : Int) (st : CronSrvState) (disk : CronDisk) :
    CronSrvState × CronDisk :=
  match st.store with
  | none => (st, disk)
  | some s =>
    ({ st with storeFileMtimeMs := some writeMtime },
     { mtime := some writeMtime, jobs := s.jobs })

/-- The normalization-relevant shape of a job: name, description, payload. -/
def jobShape (j : CronJob) : Option String × Option String × CronPayload :=
  (j.name, j.description, j.payload)

/-- The shapes of the jobs held by a service state's store. -/
def jobShapes (st : CronSrvState) : List (Option String × Option String × CronPayload) :=
  ((st.store.map CronStoreM.jobs).getD []).map jobShape

/-- Result of `ensureLoaded`: the new state and disk, whether the store file
was (re)read, and whether a normalization persist was triggered. -/
structure EnsureOut where
  state : CronSrvState
  disk : CronDisk
  didLoad : Bool
  didPersist : Bool
deriving Repr, DecidableEq

/-- `ensureLoaded`: reload only when never loaded or the on-disk mtime
advanced past the cached value; on reload, normalize every record, cache the
observed mtime and load time, recompute next runs, and persist immediately
when any record was mutated. -/
def ensureLoaded (next : CronJob → Option Int) (now : Int) (writeMtime : Int)
    (disk : CronDisk) (st : CronSrvState) : EnsureOut :=
  let fileMtimeMs := disk.mtime
  let needsReload := st.store.isNone ||
    (match fileMtimeMs, st.storeFileMtimeMs with
     | some m, some c => m > c
     | _, _ => false)
  if !needsReload then ⟨st, disk, false, false⟩
  else
    let normed := disk.jobs.map normalizeJob
    let jobs := normed.map Prod.fst
    let mutated := normed.any Prod.snd
    let st1 : CronSrvState :=
      { store := some (recomputeNextRuns next ⟨1, jobs⟩),
        storeLoadedAtMs := some now,
        storeFileMtimeMs := fileMtimeMs }
    if mutated then
      let pd := persistStore writeMtime st1 disk
      ⟨pd.1, pd.2, true, true⟩
    else ⟨st1, disk, true, false⟩

/-! ### Concrete inputs used by witnesses and counterexamples -/

/-- A loaded cron service state whose cached mtime matches the disk. -/
def c7State : CronSrvState := ⟨some ⟨1, []⟩, some 5, some 10⟩

/-- A cron disk whose mtime has not advanced past the cached value. -/
def c7Disk : CronDisk := ⟨some 10, []⟩

/-- A session store with one persisted entry carrying a session id. -/
def c4Store : List (String × SessionEntry) :=
  [("agent:main:k1", ⟨some "sid1", false, 0⟩)]

/-- A clean run whose prompt body `"[x]"` and fallback output `"[y]"` both
normalize to the empty string: identical after normalization, yet not
suppressed. -/
def c1In : ReduceIn where
  code := some 0
  signal := none
  killed := false
  rpcAssistantText := none
  trimmed := "[y]"
  rpcFromTrimmed := none
  looseFromTrimmed := none
  parsedTexts := []
  parsedToolResults := []
  metaSummary := none
  body := some "[x]"
  bodyStripped := none
  verboseOn := false
  live := false
  streamedAny := false
  configMediaUrl := none
  mediaMaxMb := none
  fileSize := fun _ => none

/-- A clean run whose fallback `"Hello"` is a case-folded echo of the prompt
body `"hello"`. -/
def c1WitIn : ReduceIn where
  code := some 0
  signal := none
  killed := false
  rpcAssistantText := some "Hello"
  trimmed := ""
  rpcFromTrimmed := none
  looseFromTrimmed := none
  parsedTexts := []
  parsedToolResults := []
  metaSummary := none
  body := some "hello"
  bodyStripped := none
  verboseOn := false
  live := false
  streamedAny := false
  configMediaUrl := none
  mediaMaxMb := none
  fileSize := fun _ => none

/-- A clean run whose fallback `"[x]"` equals the prompt body `"[x]"`
verbatim, although both normalize to the empty string. -/
def c1VerbIn : ReduceIn where
  code := some 0
  signal := none
  killed := false
  rpcAssistantText := none
  trimmed := "[x]"
  rpcFromTrimmed := none
  looseFromTrimmed := none
  parsedTexts := []
  parsedToolResults := []
  metaSummary := none
  body := some "[x]"
  bodyStripped := none
  verboseOn := false
  live := false
  streamedAny := false
  configMediaUrl := none
  mediaMaxMb := none
  fileSize := fun _ => none

/-- An absolute path of exactly 1024 characters. -/
def bigPath1024 : String := ⟨'/' :: List.replicate 1023 'a'⟩

/-- A cron disk holding one legacy job record: blank name (inferred on
load), blank-free description, legacy payload (migrated on load). -/
def c8Disk : CronDisk :=
  ⟨some 3, [⟨"job1", some "  ", some "daily sweep", true, .atTime 100,
    .legacy "evt", none⟩]⟩

/-- A run that exited with code 1 and signal `SIGTERM`, with some captured
output. -/
def c9In : ReduceIn where
  code := some 1
  signal := some "SIGTERM"
  killed := false
  rpcAssistantText := none
  trimmed := "partial out"
  rpcFromTrimmed := none
  looseFromTrimmed := none
  parsedTexts := []
  parsedToolResults := []
  metaSummary := none
  body := none
  bodyStripped := none
  verboseOn := false
  live := false
  streamedAny := false
  configMediaUrl := none
  mediaMaxMb := none
  fileSize := fun _ => none

/-! ## Claim theorems -/

/-- **C2, counterexample.**  The claim says the argv passed to the runner
always contains the forced `("--mode", "rpc")` pair.  When the de-prompted
argv ends in a valueless `--mode` flag (here `["tau", "--mode", "PROMPT"]`
with the prompt at index 2), neither rewrite branch fires: the
overwrite branch requires a truthy following value and the insert branch
requires `--mode` to be absent, so the returned argv is `["tau", "--mode"]`
and contains no `"rpc"` at all. -/
theorem C2_counterexample :
    rpcArgvForRun ["tau", "--mode", "PROMPT"] 2 = ["tau", "--mode"] ∧
    "rpc" ∉ rpcArgvForRun ["tau", "--mode", "PROMPT"] 2 := by
  constructor
  · rfl
  · decide

/-- **C2, amended.**  For every invocation whose de-prompted argv does not
carry a `--mode` flag lacking a truthy (non-empty) following value, the argv
actually passed to the subprocess runner contains the adjacent flag pair
`"--mode", "rpc"`: a mode flag with a value is overwritten with `"rpc"`, and
an absent mode flag is inserted, so a config-supplied mode value is never
honored.  (When `--mode` is present with no truthy value, the argv is
returned unchanged — the case the counterexample exhibits.) -/
theorem C2_rpc_mode_forced (argv : List String) (i : Nat)
    (h : hasModeSansValue (spliceRemoveAt argv i) = false) :
    ["--mode", "rpc"] <:+: rpcArgvForRun argv i := by
  unfold rpcArgvForRun forceRpcMode
  cases hf : (spliceRemoveAt argv i).findIdx? (· = "--mode") with
  | none =>
    simp only [hf]
    unfold spliceInsertBeforeLast
    split
    · exact ⟨[], [], by simp⟩
    · exact ⟨(spliceRemoveAt argv i).take ((spliceRemoveAt argv i).length - 1),
        (spliceRemoveAt argv i).drop ((spliceRemoveAt argv i).length - 1),
        by simp⟩
  | some j =>
    have ht : optStrTruthy (spliceRemoveAt argv i)[j+1]? = true := by
      unfold hasModeSansValue at h
      rw [hf] at h
      simpa using h
    simp only [hf, ht, if_true]
    exact ⟨(spliceRemoveAt argv i).take j, (spliceRemoveAt argv i).drop (j + 2),
      by simp⟩

/-- **C2, witness.**  A concrete invocation (`["tau", "--chat", "PROMPT"]`,
prompt at index 2) satisfies the hypothesis and gets the pair inserted. -/
theorem C2_witness :
    hasModeSansValue (spliceRemoveAt ["tau", "--chat", "PROMPT"] 2) = false ∧
    ["--mode", "rpc"] <:+: rpcArgvForRun ["tau", "--chat", "PROMPT"] 2 :=
  ⟨by decide, C2_rpc_mode_forced ["tau", "--chat", "PROMPT"] 2 (by decide)⟩

/-- **C7.**  Once the store is loaded, a further `ensureLoaded` call with the
on-disk mtime not advanced past the cached value (including an unreadable
mtime or an unset cache) performs no store read and leaves the entire state —
and in particular every job's `nextRunAtMs` — and the disk unchanged.
Contrapositively, a reload happens only when the store was never loaded or
the observed mtime is strictly greater than the cached value. -/
theorem C7_mtime_cache_no_reload (next : CronJob → Option Int)
    (now writeMtime : Int) (disk : CronDisk) (st : CronSrvState)
    (hloaded : st.store.isSome = true)
    (hstale : ∀ m c, disk.mtime = some m → st.storeFileMtimeMs = some c → m ≤ c) :
    ensureLoaded next now writeMtime disk st = ⟨st, disk, false, false⟩ := by
  unfold ensureLoaded
  cases hs : st.store with
  | none => rw [hs] at hloaded; simp at hloaded
  | some s =>
    cases hm : disk.mtime with
    | none => simp [hs, hm]
    | some m =>
      cases hc : st.storeFileMtimeMs with
      | none => simp [hs, hm, hc]
      | some c =>
        have hle := hstale m c hm hc
        have hgt : ¬ (m > c) := by omega
        simp [hs, hm, hc, hgt]

/-- **C7, witness.**  A loaded state with cached mtime 10 and an unchanged
disk mtime 10: the second call is the identity and reads nothing. -/
theorem C7_witness :
    ensureLoaded (fun _ => none) 99 100 c7Disk c7State =
      ⟨c7State, c7Disk, false, false⟩ :=
  C7_mtime_cache_no_reload (fun _ => none) 99 100 c7Disk c7State (by decide)
    (by intro m c hm hc; simp [c7Disk] at hm; simp [c7State] at hc; omega)

/-- **C4.**  For an abort request with a (non-empty) target key: when the key
resolves to a persisted entry (directly or via the legacy-key derivation),
the entry is stamped `abortedLastRun := true` with `updatedAt` refreshed and
the store is saved regardless of whether a live run existed, the transient
memory is untouched, and `aborted = true` is reported exactly when the
entry's session id named a live run that was signalled; when no persisted
entry resolves, the store is not saved, the intent is recorded only in the
transient abort memory, and `aborted = false` is reported. -/
theorem C4_abort_two_tier (parseRest : String → Option String)
    (liveAbort : String → Bool) (now : Int)
    (store : Option (List (String × SessionEntry)))
    (memory : List (String × Bool)) (tk : String) (authFrom authTo : Option String)
    (htk : tk ≠ "") :
    (∀ entry key,
      resolveSessionEntryForKey parseRest store (some tk) = some (entry, key) →
      tryFastAbortCore parseRest liveAbort now store memory (some tk)
          authFrom authTo =
        ⟨true,
         (match entry.sessionId with
          | some sid => if sid ≠ "" then liveAbort sid else false
          | none => false),
         some (objSet (store.getD []) key
           { entry with abortedLastRun := true, updatedAt := now }),
         true, memory⟩) ∧
    (resolveSessionEntryForKey parseRest store (some tk) = none →
      tryFastAbortCore parseRest liveAbort now store memory (some tk)
          authFrom authTo =
        ⟨true, false, store, false, mapSet memory tk true⟩) := by
  constructor
  · intro entry key hres
    simp [tryFastAbortCore, hres]
  · intro hres
    simp [tryFastAbortCore, hres, optStrTruthy, htk]

/-- **C4, witness.**  A store with the persisted entry `"agent:main:k1"`
carrying session id `"sid1"` and a live run: the entry is stamped and saved,
the memory stays empty, and `aborted = true` is reported. -/
theorem C4_witness :
    tryFastAbortCore (fun _ => none) (fun _ => true) 42 (some c4Store) []
        (some "agent:main:k1") none none =
      ⟨true, true, some (objSet c4Store "agent:main:k1" ⟨some "sid1", true, 42⟩),
       true, []⟩ := by
  have h := (C4_abort_two_tier (fun _ => none) (fun _ => true) 42 (some c4Store)
    [] "agent:main:k1" none none (by decide)).1 ⟨some "sid1", false, 0⟩
    "agent:main:k1" (by decide)
  simpa using h

/-- **C9.**  For every run whose subprocess exits with a non-zero exit code
(without throwing), the reducer returns exactly one terminal payload carrying
the exit-code/signal error text with at most 500 characters of captured
output, plus the run metadata — the failure is a value, never an exception
(the embedding is a total function). -/
theorem C9_nonzero_exit_single_payload (shorten : String → String)
    (formatAgg : Option String → List String → String) (inp : ReduceIn)
    (c : Int) (hc : inp.code = some c) (hc0 : c ≠ 0) :
    (reduceCommandReply shorten formatAgg inp).payloads =
      [{ text := some (exitErrorText inp.code inp.signal inp.rpcAssistantText
           inp.trimmed) }] ∧
    (exitSnippet inp.rpcAssistantText inp.trimmed).length ≤ 500 ∧
    (reduceCommandReply shorten formatAgg inp).meta =
      ⟨inp.code, inp.signal, inp.killed⟩ := by
  refine ⟨?_, ?_, ?_⟩
  · simp [reduceCommandReply, hc, hc0]
  · simp only [exitSnippet, List.length_take]
    omega
  · simp [reduceCommandReply, hc, hc0]

/-- **C9, witness.**  A concrete failed run (exit code 1, `SIGTERM`): one
error payload, snippet within bounds, metadata preserved. -/
theorem C9_witness :
    (reduceCommandReply id (fun _ _ => "") c9In).payloads =
      [{ text := some (exitErrorText c9In.code c9In.signal c9In.rpcAssistantText
           c9In.trimmed) }] ∧
    (exitSnippet c9In.rpcAssistantText c9In.trimmed).length ≤ 500 ∧
    (reduceCommandReply id (fun _ _ => "") c9In).meta =
      ⟨c9In.code, c9In.signal, c9In.killed⟩ :=
  C9_nonzero_exit_single_payload id (fun _ _ => "") c9In 1 rfl (by decide)

/-- **C10.**  For every input, either no valid media candidate was found and
the result carries neither `mediaUrls` nor `mediaUrl`, or `mediaUrls` is
present and non-empty, the legacy `mediaUrl` equals its first element, and
the list is exactly the extracted candidates in order. -/
theorem C10_media_fields_invariant (raw : String) :
    ((splitMediaFromOutput raw).mediaUrls = none ∧
     (splitMediaFromOutput raw).mediaUrl = none ∧
     extractedMedia raw = []) ∨
    (∃ u us, (splitMediaFromOutput raw).mediaUrls = some (u :: us) ∧
     (splitMediaFromOutput raw).mediaUrl = some u ∧
     u :: us = (extractedMedia raw).map String.mk) := by
  unfold splitMediaFromOutput extractedMedia
  by_cases h0 : jsTrim (jsTrimEnd raw.data) = []
  · left
    simp [h0]
  · cases hm : ((mediaLineOuts (jsTrimEnd raw.data)).map LineOut.media).flatten with
    | nil => left; simp [h0, hm]
    | cons m ms =>
      right
      exact ⟨String.mk m, ms.map String.mk, by simp [h0, hm], by simp [h0, hm],
        by simp [h0, hm]⟩

/-- **C3.**  With a live partial-reply callback, the `ToolResult` sequence
with tool names `[A, A, B, B]` (each event carrying a meta) produces exactly
two aggregate flushes: the first with the two `A` metas, the second with the
two `B` metas, in arrival order — the flush on the tool-name change (or on
the count threshold) happens before the new aggregate starts, so no flush
mixes tools.  The count threshold `TOOL_RESULT_FLUSH_COUNT` lives in
tool-meta.ts (not under src/); the statement covers every threshold other
than the degenerate value 1 (`0` disables count-based flushing), and the
debounce timer is modelled as not firing between the events (arrival within
the debounce window). -/
theorem C3_tool_aggregate_flushes (A B m1 m2 m3 m4 : String) (flushCount : Nat)
    (hA : A ≠ "") (hB : B ≠ "") (hBA : B ≠ A)
    (h1 : m1 ≠ "") (h2 : m2 ≠ "") (h3 : m3 ≠ "") (h4 : m4 ≠ "")
    (hfc : flushCount = 0 ∨ 2 ≤ flushCount) :
    (runToolResults true flushCount
      [(some A, some m1), (some A, some m2),
       (some B, some m3), (some B, some m4)]).flushes =
    [(some A, [m1, m2]), (some B, [m3, m4])] := by
  rcases hfc with rfl | hge
  · simp [runToolResults, onToolResult, flushPendingTool, optStrTruthy,
      toolAggInit, hA, hB, hBA, h1, h2, h3, h4]
  · by_cases h2eq : flushCount = 2
    · subst h2eq
      simp [runToolResults, onToolResult, flushPendingTool, optStrTruthy,
        toolAggInit, hA, hB, hBA, h1, h2, h3, h4]
    · have hn1 : ¬ (1 ≥ flushCount) := by omega
      have hn2 : ¬ (2 ≥ flushCount) := by omega
      have hp : flushCount > 0 := by omega
      simp [runToolResults, onToolResult, flushPendingTool, optStrTruthy,
        toolAggInit, hA, hB, hBA, h1, h2, h3, h4, hn1, hn2, hp]

/-- **C3, witness.**  Tool names `"bash"`, `"read"`, metas `"a1" … "b2"`,
threshold 5: the flushes are `[(bash, [a1, a2]), (read, [b1, b2])]`. -/
theorem C3_witness :
    (runToolResults true 5
      [(some "bash", some "a1"), (some "bash", some "a2"),
       (some "read", some "b1"), (some "read", some "b2")]).flushes =
    [(some "bash", ["a1", "a2"]), (some "read", ["b1", "b2"])] :=
  C3_tool_aggregate_flushes "bash" "read" "a1" "a2" "b1" "b2" 5
    (by decide) (by decide) (by decide) (by decide) (by decide) (by decide)
    (by decide) (Or.inr (by omega))

theorem noOutputText_ne_empty (ms : Option String) : noOutputText ms ≠ "" := by
  unfold noOutputText
  cases ms with
  | none => decide
  | some m =>
    by_cases hm : m = ""
    · subst hm; decide
    · simp only [ne_eq, hm, not_false_eq_true, if_true]
      intro h
      have hlen := congrArg String.length h
      simp only [String.length_append] at hlen
      have e1 : "(command produced no output".length = 27 := rfl
      have e2 : "; ".length = 2 := rfl
      have e3 : ")".length = 1 := rfl
      have e4 : "".length = 0 := rfl
      rw [e1, e2, e3, e4] at hlen
      omega

/-- **C1, counterexample.**  The run parsed no structured payload, and its
fallback-extracted text `"[y]"` is textually identical to the prompt body
`"[x]"` after normalization (both normalize to the empty string).  The claim
then demands the synthetic no-output payload, but the reducer echoes `"[y]"`
back: the echo guard requires the normalized body to be non-empty (or an
exact raw match), so the fallback survives. -/
theorem C1_counterexample :
    normalizeEcho (c1In.body.or c1In.bodyStripped) =
      normalizeEcho (some c1In.trimmed) ∧
    c1In.parsedTexts = [] ∧ c1In.parsedToolResults = [] ∧
    ((c1In.rpcAssistantText.or c1In.rpcFromTrimmed).or
        c1In.looseFromTrimmed).getD c1In.trimmed = "[y]" ∧
    (reduceCommandReply id (fun _ _ => "") c1In).payloads =
      [{ text := some "[y]" }] := by
  refine ⟨by decide, rfl, rfl, rfl, by decide⟩

/-- **C1, amended.**  For every run in which no structured payload was parsed
and the fallback-extracted text either equals the raw or stripped prompt body
verbatim, or is textually identical to the prompt body after normalization
(structural-prefix stripping, case-folding, whitespace collapsing) with the
normalized body non-empty, the reducer suppresses the fallback and emits the
synthetic no-output payload instead of echoing the prompt back as a reply.
(When the bodies differ verbatim and the body normalizes to the empty string
the echo guard deliberately stands down and the fallback is delivered, as
the counterexample shows; a clean exit without a kill and no live streaming
are assumed so the no-output payload is what the caller receives.) -/
theorem C1_echo_suppressed (shorten : String → String)
    (formatAgg : Option String → List String → String) (inp : ReduceIn)
    (hpt : inp.parsedTexts = []) (htr : inp.parsedToolResults = [])
    (hcode : inp.code.getD 0 = 0) (hkill : inp.killed = false)
    (hstream : inp.streamedAny = false)
    (hguard :
      ((inp.rpcAssistantText.or inp.rpcFromTrimmed).or inp.looseFromTrimmed).getD
          inp.trimmed = inp.body.getD "" ∨
      ((inp.rpcAssistantText.or inp.rpcFromTrimmed).or inp.looseFromTrimmed).getD
          inp.trimmed = inp.bodyStripped.getD "" ∨
      (normalizeEcho (inp.body.or inp.bodyStripped) ≠ [] ∧
        normalizeEcho (some (((inp.rpcAssistantText.or inp.rpcFromTrimmed).or
            inp.looseFromTrimmed).getD inp.trimmed)) =
          normalizeEcho (inp.body.or inp.bodyStripped))) :
    (reduceCommandReply shorten formatAgg inp).payloads.map ReplyPayloadL.text =
      [some (noOutputText inp.metaSummary)] := by
  have hno := noOutputText_ne_empty inp.metaSummary
  by_cases hfb0 : ((inp.rpcAssistantText.or inp.rpcFromTrimmed).or
      inp.looseFromTrimmed).getD inp.trimmed = ""
  · simp [reduceCommandReply, hpt, htr, normalizeToolResults, hcode, hkill,
      hstream, hfb0, hno, optStrTruthy]
  · rcases hguard with h1 | h2 | ⟨hne, hnorm⟩
    · rw [h1] at hfb0
      simp [reduceCommandReply, hpt, htr, normalizeToolResults, hcode, hkill,
        hstream, h1, hfb0, hno, optStrTruthy]
    · rw [h2] at hfb0
      simp [reduceCommandReply, hpt, htr, normalizeToolResults, hcode, hkill,
        hstream, h2, hfb0, hno, optStrTruthy]
    · have hpos : 0 < (normalizeEcho (inp.body.or inp.bodyStripped)).length :=
        List.length_pos.mpr hne
      simp [reduceCommandReply, hpt, htr, normalizeToolResults, hcode, hkill,
        hstream, hfb0, hnorm, hpos, hno, optStrTruthy]

/-- **C1, witness.**  Both branches of the echo guard: prompt body `"hello"`
with fallback `"Hello"` (identical after case-folding, non-empty normalized
body) and prompt body `"[x]"` with fallback `"[x]"` (verbatim equality while
both normalize to the empty string) each yield the no-output payload. -/
theorem C1_witness :
    (reduceCommandReply id (fun _ _ => "") c1WitIn).payloads.map
        ReplyPayloadL.text = [some (noOutputText c1WitIn.metaSummary)] ∧
    (reduceCommandReply id (fun _ _ => "") c1VerbIn).payloads.map
        ReplyPayloadL.text = [some (noOutputText c1VerbIn.metaSummary)] :=
  ⟨C1_echo_suppressed id (fun _ _ => "") c1WitIn rfl rfl rfl rfl rfl
     (Or.inr (Or.inr ⟨by decide, by decide⟩)),
   C1_echo_suppressed id (fun _ _ => "") c1VerbIn rfl rfl rfl rfl rfl
     (Or.inl (by decide))⟩

theorem dropWhile_idem (p : Char → Bool) (l : List Char) :
    (l.dropWhile p).dropWhile p = l.dropWhile p := by
  induction l with
  | nil => simp
  | cons c cs ih =>
    simp only [List.dropWhile_cons]
    split
    · exact ih
    · simp_all [List.dropWhile_cons]

theorem dropWhile_eq_cons_head_false {p : Char → Bool} {l t : List Char}
    {a : Char} (h : l.dropWhile p = a :: t) : p a = false := by
  induction l with
  | nil => simp at h
  | cons c cs ih =>
    simp only [List.dropWhile_cons] at h
    split at h
    · exact ih h
    · cases h
      simp_all

theorem jsTrimStart_idem (l : List Char) :
    jsTrimStart (jsTrimStart l) = jsTrimStart l :=
  dropWhile_idem isJsWs l

theorem jsTrimEnd_idem (l : List Char) :
    jsTrimEnd (jsTrimEnd l) = jsTrimEnd l := by
  unfold jsTrimEnd
  rw [List.reverse_reverse, dropWhile_idem]

theorem jsTrimStart_jsTrimEnd (x : List Char) (h : jsTrimStart x = x) :
    jsTrimStart (jsTrimEnd x) = jsTrimEnd x := by
  cases hx : jsTrimEnd x with
  | nil => simp [jsTrimStart]
  | cons a t =>
    have hpre : jsTrimEnd x <+: x := by
      show (x.reverse.dropWhile isJsWs).reverse <+: x
      simpa using
        (List.reverse_prefix.mpr (List.dropWhile_suffix (l := x.reverse) isJsWs))
    obtain ⟨r, hr⟩ := hpre
    rw [hx] at hr
    have hhead : isJsWs a = false := by
      have hx' : x.dropWhile isJsWs = x := h
      rw [← hr] at hx'
      have : List.dropWhile isJsWs (a :: (t ++ r)) = a :: (t ++ r) := by
        simpa using hx'
      exact dropWhile_eq_cons_head_false this
    simp [jsTrimStart, List.dropWhile_cons, hhead]

theorem jsTrim_idem (l : List Char) : jsTrim (jsTrim l) = jsTrim l := by
  unfold jsTrim
  rw [jsTrimStart_jsTrimEnd (jsTrimStart l) (jsTrimStart_idem l), jsTrimEnd_idem]

theorem jsTrimS_idem (s : String) : jsTrimS (jsTrimS s) = jsTrimS s := by
  unfold jsTrimS
  exact congrArg String.mk (jsTrim_idem s.data)

theorem inferLegacyName_trim (s : CronSchedule) (p : CronPayload) :
    jsTrimS (inferLegacyName s p) = inferLegacyName s p := by
  cases s <;> cases p <;> rfl

theorem inferLegacyName_ne (s : CronSchedule) (p : CronPayload) :
    inferLegacyName s p ≠ "" := by
  cases s <;> cases p <;> simp [inferLegacyName]

theorem migrate_idem (p : CronPayload) :
    migrateLegacyCronPayload (migrateLegacyCronPayload p).2 =
      (false, (migrateLegacyCronPayload p).2) := by
  cases p <;> rfl

theorem normalizeOptionalText_idem (d : Option String) :
    normalizeOptionalText (normalizeOptionalText d) = normalizeOptionalText d := by
  cases d with
  | none => rfl
  | some s =>
    by_cases h : jsTrimS s = ""
    · simp [normalizeOptionalText, h]
    · simp [normalizeOptionalText, h]

/-- The name produced by `normalizeJob` is a trim-stable non-empty string. -/
theorem normalizeJob_name_spec (j : CronJob) :
    ∃ t, (normalizeJob j).1.name = some t ∧ jsTrimS t = t ∧ t ≠ "" := by
  unfold normalizeJob
  cases hn : j.name with
  | none =>
    exact ⟨inferLegacyName j.schedule j.payload, rfl,
      inferLegacyName_trim j.schedule j.payload,
      inferLegacyName_ne j.schedule j.payload⟩
  | some n =>
    by_cases h : jsTrimS n = ""
    · refine ⟨inferLegacyName j.schedule j.payload, ?_,
        inferLegacyName_trim j.schedule j.payload,
        inferLegacyName_ne j.schedule j.payload⟩
      simp [h]
    · exact ⟨jsTrimS n, by simp [h], jsTrimS_idem n, h⟩

/-- Renormalizing the image of `normalizeJob` (with any recomputed
`nextRunAtMs`) changes nothing and does not mark the record mutated. -/
theorem normalizeJob_shape_idem (j : CronJob) (v : Option Int) :
    normalizeJob { (normalizeJob j).1 with nextRunAtMs := v } =
      ({ (normalizeJob j).1 with nextRunAtMs := v }, false) := by
  obtain ⟨t, hname, htrim, hne'⟩ := normalizeJob_name_spec j
  have hdesc : (normalizeJob j).1.description = normalizeOptionalText j.description :=
    rfl
  have hpay : (normalizeJob j).1.payload = (migrateLegacyCronPayload j.payload).2 :=
    rfl
  conv_lhs => rw [normalizeJob]
  have hkname : ({ (normalizeJob j).1 with nextRunAtMs := v } : CronJob).name =
      some t := hname
  rw [hkname]
  simp only [htrim, ne_eq, hne', not_false_eq_true, if_true]
  have hkdesc : ({ (normalizeJob j).1 with nextRunAtMs := v } : CronJob).description =
      normalizeOptionalText j.description := hdesc
  have hkpay : ({ (normalizeJob j).1 with nextRunAtMs := v } : CronJob).payload =
      (migrateLegacyCronPayload j.payload).2 := hpay
  rw [hkdesc, hkpay, normalizeOptionalText_idem, migrate_idem]
  simp [hname]

theorem jobShape_set_next (j : CronJob) (v : Option Int) :
    jobShape { j with nextRunAtMs := v } = jobShape j := rfl

/-- Renormalizing the persisted (normalized, next-run-recomputed) jobs is the
identity and marks nothing mutated. -/
theorem normalizeJob_map_persisted (nx : CronJob → Option Int) (l : List CronJob) :
    ((l.map (fun j => (normalizeJob j).1)).map
        (fun j => { j with nextRunAtMs := nx j })).map normalizeJob =
      (l.map (fun j => (normalizeJob j).1)).map
        (fun j => ({ j with nextRunAtMs := nx j }, false)) := by
  rw [List.map_map, List.map_map, List.map_map]
  refine List.map_congr_left (fun j _ => ?_)
  exact normalizeJob_shape_idem j (nx ((normalizeJob j).1))

/-- Evaluating `ensureLoaded` on a fresh (never-loaded) state: it always
reloads, normalizes, recomputes next runs, and persists exactly when some
record was mutated. -/
theorem ensureLoaded_fresh (nx : CronJob → Option Int) (n w : Int)
    (d : CronDisk) :
    ensureLoaded nx n w d ⟨none, none, none⟩ =
      (if (d.jobs.map normalizeJob).any Prod.snd then
        ⟨⟨some ⟨1, (d.jobs.map (fun j => (normalizeJob j).1)).map
              (fun j => { j with nextRunAtMs := nx j })⟩, some n, some w⟩,
         ⟨some w, (d.jobs.map (fun j => (normalizeJob j).1)).map
              (fun j => { j with nextRunAtMs := nx j })⟩, true, true⟩
      else
        ⟨⟨some ⟨1, (d.jobs.map (fun j => (normalizeJob j).1)).map
              (fun j => { j with nextRunAtMs := nx j })⟩, some n, d.mtime⟩,
         d, true, false⟩) := by
  by_cases h : (d.jobs.map normalizeJob).any Prod.snd
  · simp [ensureLoaded, h, persistStore, recomputeNextRuns, List.map_map]
  · simp [ensureLoaded, h, recomputeNextRuns, List.map_map]

/-- **C8.**  Loading from a fresh state: (i) if any raw record is mutated by
normalization (name inference, description normalization, legacy payload
migration), the load persists immediately; and (ii) a job normalized on load
and immediately persisted normalizes to the same in-memory shape
(name/description/payload) when loaded again — also when nothing was
persisted, in which case the second load sees the same raw records. -/
theorem C8_normalize_persist_roundtrip (next next2 : CronJob → Option Int)
    (now now2 wm wm2 : Int) (disk : CronDisk) :
    (disk.jobs.any (fun j => (normalizeJob j).2) = true →
      (ensureLoaded next now wm disk ⟨none, none, none⟩).didPersist = true) ∧
    jobShapes (ensureLoaded next2 now2 wm2
        (ensureLoaded next now wm disk ⟨none, none, none⟩).disk
        ⟨none, none, none⟩).state =
      jobShapes (ensureLoaded next now wm disk ⟨none, none, none⟩).state := by
  have hLnorm := normalizeJob_map_persisted next disk.jobs
  have hany2 : ((((disk.jobs.map (fun j => (normalizeJob j).1)).map
      (fun j => { j with nextRunAtMs := next j })).map normalizeJob).any
        Prod.snd) = false := by
    rw [hLnorm]
    simp [List.any_map]
  have h2 : (((disk.jobs.map (fun j => (normalizeJob j).1)).map
        (fun j => { j with nextRunAtMs := next j })).map
      (fun j => (normalizeJob j).1)) =
      ((disk.jobs.map (fun j => (normalizeJob j).1)).map
        (fun j => { j with nextRunAtMs := next j })) := by
    simp only [List.map_map]
    refine List.map_congr_left (fun j _ => ?_)
    show (normalizeJob { (normalizeJob j).1 with
      nextRunAtMs := next ((normalizeJob j).1) }).1 = _
    rw [normalizeJob_shape_idem]
    rfl
  by_cases hmut : (disk.jobs.map normalizeJob).any Prod.snd = true
  · constructor
    · intro _
      simp [ensureLoaded_fresh, hmut]
    · simp only [ensureLoaded_fresh, hmut, if_true]
      simp only [hany2, Bool.false_eq_true, if_false, jobShapes,
        Option.map_some', Option.getD_some]
      rw [h2]
      simp only [List.map_map]
      exact List.map_congr_left (fun j _ => rfl)
  · have hmut' : disk.jobs.any (fun j => (normalizeJob j).2) = false := by
      simpa using eq_false_of_ne_true hmut
    constructor
    · intro h
      rw [hmut'] at h
      cases h
    · simp only [ensureLoaded_fresh, hmut, Bool.false_eq_true, if_false,
        jobShapes, Option.map_some', Option.getD_some]
      simp only [List.map_map]
      exact List.map_congr_left (fun j _ => rfl)

/-- **C8, witness.**  A legacy record (blank name, legacy payload) is
normalized and persisted on first load, and a second load from the persisted
file yields the same name/description/payload shapes. -/
theorem C8_witness :
    (ensureLoaded (fun _ => some 500) 1 2 c8Disk ⟨none, none, none⟩).didPersist =
      true ∧
    jobShapes (ensureLoaded (fun _ => some 600) 3 4
        (ensureLoaded (fun _ => some 500) 1 2 c8Disk ⟨none, none, none⟩).disk
        ⟨none, none, none⟩).state =
      jobShapes (ensureLoaded (fun _ => some 500) 1 2 c8Disk ⟨none, none, none⟩).state :=
  ⟨(C8_normalize_persist_roundtrip (fun _ => some 500) (fun _ => some 600)
      1 3 2 4 c8Disk).1 (by decide),
   (C8_normalize_persist_roundtrip (fun _ => some 500) (fun _ => some 600)
      1 3 2 4 c8Disk).2⟩

theorem splitLines_ne_nil (s : List Char) : splitLines s ≠ [] := by
  cases s with
  | nil => simp [splitLines]
  | cons c rest =>
    simp only [splitLines]
    split
    · simp
    · cases splitLines rest <;> simp

theorem joinLines_splitLines (s : List Char) : joinLines (splitLines s) = s := by
  induction s with
  | nil => rfl
  | cons c rest ih =>
    simp only [splitLines]
    by_cases hc : c = '\n'
    · subst hc
      rw [if_pos rfl]
      cases hs : splitLines rest with
      | nil => exact absurd hs (splitLines_ne_nil rest)
      | cons l ls =>
        show '\n' :: joinLines (l :: ls) = '\n' :: rest
        rw [← hs, ih]
    · rw [if_neg hc]
      cases hs : splitLines rest with
      | nil => exact absurd hs (splitLines_ne_nil rest)
      | cons l ls =>
        cases ls with
        | nil =>
          show c :: l = c :: rest
          have := ih
          rw [hs] at this
          simpa using this
        | cons l2 ls2 =>
          show (c :: l) ++ '\n' :: joinLines (l2 :: ls2) = c :: rest
          have := ih
          rw [hs] at this
          simp only [joinLines] at this
          simpa using this

theorem fenceFlags_go_length (inFence : Bool) (ls : List (List Char)) :
    (fenceFlagsOfLines.go inFence ls).length = ls.length := by
  induction ls generalizing inFence with
  | nil => rfl
  | cons l ls ih =>
    simp only [fenceFlagsOfLines.go]
    split <;> simp [ih]

theorem fenceFlagsOfLines_length (ls : List (List Char)) :
    (fenceFlagsOfLines ls).length = ls.length :=
  fenceFlags_go_length false ls

/-- When no line matches a `MEDIA:` token, every line is kept verbatim. -/
theorem lineOuts_id (ls : List (List Char)) (fs : List Bool)
    (hlen : ls.length = fs.length)
    (hnom : ∀ l ∈ ls, findMediaToken [] none l = none) :
    (ls.zip fs).map
      (fun lf => if lf.2 then (⟨[lf.1], [], false⟩ : LineOut)
        else processMediaLine lf.1) =
    ls.map (fun l => (⟨[l], [], false⟩ : LineOut)) := by
  induction ls generalizing fs with
  | nil => simp
  | cons l ls ih =>
    cases fs with
    | nil => simp at hlen
    | cons f fs =>
      simp only [List.zip_cons_cons, List.map_cons, List.cons.injEq]
      constructor
      · cases f
        · simp [processMediaLine, hnom l (by simp)]
        · simp
      · exact ih fs (by simpa using hlen) (fun x hx => hnom x (by simp [hx]))

theorem flatten_map_singleton (ls : List (List Char)) :
    (ls.map (fun l => [l])).flatten = ls := by
  induction ls with
  | nil => rfl
  | cons l ls ih => simp [ih]

theorem all_ws_of_jsTrimEnd_nil (y : List Char) (h : jsTrimEnd y = [])
    (c : Char) (hc : c ∈ y) : isJsWs c = true := by
  unfold jsTrimEnd at h
  have h2 : y.reverse.dropWhile isJsWs = [] := by
    have := congrArg List.reverse h
    simpa using this
  exact List.dropWhile_eq_nil_iff.mp h2 c (by simpa using hc)

theorem eq_nil_of_trimEnd_stable_trim_nil (x : List Char)
    (hstable : jsTrimEnd x = x) (htrim : jsTrim x = []) : x = [] := by
  unfold jsTrim at htrim
  have hall : ∀ c ∈ jsTrimStart x, isJsWs c = true :=
    all_ws_of_jsTrimEnd_nil _ htrim
  have hstart : jsTrimStart x = [] := by
    cases hs : jsTrimStart x with
    | nil => rfl
    | cons a t =>
      have ha : isJsWs a = false := dropWhile_eq_cons_head_false hs
      have := hall a (by rw [hs]; simp)
      rw [ha] at this
      cases this
  have hxall : ∀ c ∈ x, isJsWs c = true :=
    fun c hc => List.dropWhile_eq_nil_iff.mp hstart c hc
  rw [← hstable]
  unfold jsTrimEnd
  have : x.reverse.dropWhile isJsWs = [] :=
    List.dropWhile_eq_nil_iff.mpr (fun c hc => hxall c (by simpa using hc))
  rw [this]
  rfl

/-- **C6, counterexample.**  `"MEDIA: /a MEDIA: bad"` extracts `/a` and —
because the line also produced a valid candidate — keeps the invalid rest as
`"MEDIA: bad"`; running the extractor on that cleaned text is **not** the
identity: the now invalid-only match is dropped entirely, returning `""`. -/
theorem C6_counterexample :
    (splitMediaFromOutput "MEDIA: /a MEDIA: bad").text = "MEDIA: bad" ∧
    (splitMediaFromOutput
        ((splitMediaFromOutput "MEDIA: /a MEDIA: bad").text)).text ≠
      (splitMediaFromOutput "MEDIA: /a MEDIA: bad").text := by
  constructor
  · decide
  · decide

/-- **C6, amended.**  Media extraction is idempotent on cleaned text that
retains no `MEDIA:` token: for every trim-end-stable text none of whose
lines matches the `MEDIA:` token regex and whose whitespace-collapsed form
carries no `[[audio_as_voice]]` tag, re-applying `splitMediaFromOutput`
extracts nothing and returns the text unchanged.  (When preserved invalid
candidates leave a `MEDIA:` token in the cleaned text, a second pass can
remove them, as the counterexample shows.) -/
theorem C6_idempotent_on_clean (t : String)
    (htrim : jsTrimEnd t.data = t.data)
    (hnom : ∀ line ∈ splitLines t.data, findMediaToken [] none line = none)
    (haud : audioTagFound (jsTrim (collapseNewlines (collapseSpTab2
      (stripWsBeforeNl t.data)))) = false) :
    splitMediaFromOutput t = { text := t } := by
  unfold splitMediaFromOutput
  rw [htrim]
  by_cases h0 : jsTrim t.data = []
  · rw [if_pos h0]
    have ht : t.data = [] := eq_nil_of_trimEnd_stable_trim_nil t.data htrim h0
    cases t with
    | mk d =>
      simp only at ht
      subst ht
      rfl
  · rw [if_neg h0]
    have houts : mediaLineOuts t.data =
        (splitLines t.data).map (fun l => (⟨[l], [], false⟩ : LineOut)) := by
      unfold mediaLineOuts
      exact lineOuts_id (splitLines t.data)
        (fenceFlagsOfLines (splitLines t.data))
        (fenceFlagsOfLines_length (splitLines t.data)).symm hnom
    rw [houts]
    simp only [List.map_map]
    have hkept : (((splitLines t.data).map
        (LineOut.kept ∘ fun l => (⟨[l], [], false⟩ : LineOut)))).flatten =
        splitLines t.data := flatten_map_singleton (splitLines t.data)
    rw [hkept, joinLines_splitLines]
    have hmedia : (((splitLines t.data).map
        (LineOut.media ∘ fun l => (⟨[l], [], false⟩ : LineOut)))).flatten =
        ([] : List (List Char)) := by
      simp
    rw [hmedia]
    have hfound : ((splitLines t.data).map
        (fun l => (⟨[l], [], false⟩ : LineOut))).any LineOut.found = false := by
      simp [List.any_map]
    simp only [List.map_map] at hfound
    rw [hfound, haud]
    simp

/-- **C6, witness.**  A two-line cleaned text with no `MEDIA:` token: the
extractor returns it unchanged with no media fields. -/
theorem C6_witness :
    splitMediaFromOutput "hello\nworld" = { text := "hello\nworld" } :=
  C6_idempotent_on_clean "hello\nworld" (by decide) (by decide) (by decide)

theorem splitWsAux_tokens (s : List Char) : ∀ (cur : List Char),
    (∀ c ∈ cur, isJsWs c = false) →
    ∀ p ∈ splitWsAux cur s, p ≠ [] ∧ ∀ c ∈ p, isJsWs c = false := by
  induction s with
  | nil =>
    intro cur hcur p hp
    simp only [splitWsAux] at hp
    split at hp
    · simp at hp
    · rename_i hne
      simp only [List.mem_singleton] at hp
      subst hp
      exact ⟨by simpa using hne, fun c hc => hcur c (by simpa using hc)⟩
  | cons c cs ih =>
    intro cur hcur p hp
    simp only [splitWsAux] at hp
    by_cases hws : isJsWs c = true
    · rw [if_pos hws] at hp
      split at hp
      · exact ih [] (by simp) p hp
      · rename_i hne
        rcases List.mem_cons.mp hp with rfl | hp'
        · exact ⟨by simpa using hne, fun d hd => hcur d (by simpa using hd)⟩
        · exact ih [] (by simp) p hp'
    · rw [if_neg hws] at hp
      refine ih (c :: cur) ?_ p hp
      intro d hd
      rcases List.mem_cons.mp hd with rfl | hd'
      · exact eq_false_of_ne_true hws
      · exact hcur d hd'

theorem splitWs_tokens (s p : List Char) (hp : p ∈ splitWs s) :
    p ≠ [] ∧ ∀ c ∈ p, isJsWs c = false :=
  splitWsAux_tokens s [] (by simp) p hp

theorem classifyParts_sound (parts : List (List Char)) :
    ∀ c ∈ (classifyParts parts).1, isValidMedia c = true := by
  induction parts with
  | nil => simp [classifyParts]
  | cons p ps ih =>
    intro c hc
    simp only [classifyParts] at hc
    split at hc
    · rename_i hv
      rcases List.mem_cons.mp hc with rfl | h'
      · exact hv
      · exact ih c h'
    · exact ih c hc

theorem classifyParts_complete (parts : List (List Char)) (p : List Char)
    (hp : p ∈ parts) :
    (isValidMedia (mediaCandidate p) = true →
      mediaCandidate p ∈ (classifyParts parts).1) ∧
    (isValidMedia (mediaCandidate p) = false → p ∈ (classifyParts parts).2) := by
  induction parts with
  | nil => simp at hp
  | cons q qs ih =>
    rcases List.mem_cons.mp hp with rfl | hp'
    · constructor
      · intro hv
        simp only [classifyParts, hv, if_true]
        exact List.mem_cons_self _ _
      · intro hv
        simp only [classifyParts, hv, Bool.false_eq_true, if_false]
        exact List.mem_cons_self _ _
    · have ihh := ih hp'
      constructor
      · intro hv
        simp only [classifyParts]
        split
        · exact List.mem_cons_of_mem _ (ihh.1 hv)
        · exact ihh.1 hv
      · intro hv
        simp only [classifyParts]
        split
        · exact ihh.2 hv
        · exact List.mem_cons_of_mem _ (ihh.2 hv)

theorem mediaLineOuts_sound (trimmedRaw : List Char) :
    ∀ out ∈ mediaLineOuts trimmedRaw, ∀ m ∈ out.media, isValidMedia m = true := by
  intro out hout m hm
  unfold mediaLineOuts at hout
  rcases List.mem_map.mp hout with ⟨lf, -, hlf⟩
  by_cases hf : lf.2
  · rw [if_pos hf] at hlf
    rw [← hlf] at hm
    simp at hm
  · rw [if_neg hf] at hlf
    rw [← hlf] at hm
    unfold processMediaLine at hm
    rcases hmt : findMediaToken [] none lf.1 with - | ⟨pre, payload⟩
    · rw [hmt] at hm
      simp at hm
    · rw [hmt] at hm
      exact classifyParts_sound (splitWs payload) m hm

/-- Soundness of the whole pipeline: every extracted media reference
satisfies the validity predicate. -/
theorem splitMediaFromOutput_sound (raw : String) (l : List String)
    (hl : (splitMediaFromOutput raw).mediaUrls = some l) :
    ∀ u ∈ l, isValidMedia u.data = true := by
  intro u hu
  unfold splitMediaFromOutput at hl
  by_cases h0 : jsTrim (jsTrimEnd raw.data) = []
  · rw [if_pos h0] at hl
    simp at hl
  · rw [if_neg h0] at hl
    set media := ((mediaLineOuts (jsTrimEnd raw.data)).map LineOut.media).flatten
      with hmedia
    by_cases hm : media = []
    · rw [if_pos hm] at hl
      simp at hl
    · rw [if_neg hm] at hl
      have hl2 : media.map String.mk = l := Option.some.inj hl
      have hul : u ∈ media.map String.mk := hl2 ▸ hu
      rcases List.mem_map.mp hul with ⟨m, hm1, hm2⟩
      rw [hmedia] at hm1
      rcases List.mem_flatten.mp hm1 with ⟨ms, hms1, hms2⟩
      rcases List.mem_map.mp hms1 with ⟨out, hout, houteq⟩
      have := mediaLineOuts_sound (jsTrimEnd raw.data) out hout m
        (by rw [houteq]; exact hms2)
      rw [← hm2]
      exact this

theorem isJsWs_of_isSpTab (c : Char) (h : isSpTab c = true) : isJsWs c = true := by
  unfold isSpTab at h
  unfold isJsWs
  rcases Bool.or_eq_true_iff.mp h with h | h <;> simp [h]

theorem infix_joinSpace {p : List Char} {inv : List (List Char)} (hp : p ∈ inv) :
    p <:+: joinSpace inv := by
  induction inv with
  | nil => simp at hp
  | cons q rest ih =>
    rcases List.mem_cons.mp hp with rfl | hp'
    · cases rest with
      | nil => exact List.infix_refl _
      | cons r rs => exact ⟨[], ' ' :: joinSpace (r :: rs), by simp [joinSpace]⟩
    · cases rest with
      | nil => simp at hp'
      | cons r rs =>
        obtain ⟨a, b, hab⟩ := ih hp'
        refine ⟨q ++ ' ' :: a, b, ?_⟩
        show (q ++ ' ' :: a) ++ p ++ b = joinSpace (q :: r :: rs)
        have : joinSpace (q :: r :: rs) = q ++ ' ' :: joinSpace (r :: rs) := rfl
        rw [this, ← hab]
        simp

theorem collapse2Aux_copy (b : List Char) : ∀ (p : List Char),
    (∀ c ∈ p, isSpTab c = false) →
    collapseSpTab2Aux none (p ++ b) = p ++ collapseSpTab2Aux none b := by
  intro p
  induction p with
  | nil => simp
  | cons c ps ih =>
    intro hp
    have hc : isSpTab c = false := hp c (by simp)
    show collapseSpTab2Aux none (c :: (ps ++ b)) = _
    simp only [collapseSpTab2Aux, hc, Bool.false_eq_true, if_false, flushRun2,
      List.nil_append]
    rw [ih (fun d hd => hp d (by simp [hd]))]
    rfl

theorem collapse2Aux_mid (p b : List Char) (hpne : p ≠ [])
    (hp : ∀ c ∈ p, isSpTab c = false) :
    ∀ (a : List Char) (st : Option (Char ⊕ Unit)),
    ∃ u, collapseSpTab2Aux st (a ++ p ++ b) = u ++ p ++ collapseSpTab2Aux none b := by
  intro a
  induction a with
  | nil =>
    intro st
    cases p with
    | nil => exact absurd rfl hpne
    | cons c ps =>
      have hc : isSpTab c = false := hp c (by simp)
      refine ⟨flushRun2 st, ?_⟩
      show collapseSpTab2Aux st (c :: (ps ++ b)) = _
      simp only [collapseSpTab2Aux, hc, Bool.false_eq_true, if_false]
      rw [collapse2Aux_copy b ps (fun d hd => hp d (by simp [hd]))]
      simp
  | cons d as ih =>
    intro st
    by_cases hd : isSpTab d = true
    · cases st with
      | none =>
        obtain ⟨u, hu⟩ := ih (some (Sum.inl d))
        refine ⟨u, ?_⟩
        show collapseSpTab2Aux none (d :: (as ++ p ++ b)) = _
        simp only [collapseSpTab2Aux, hd, if_true]
        exact hu
      | some x =>
        obtain ⟨u, hu⟩ := ih (some (Sum.inr ()))
        refine ⟨u, ?_⟩
        show collapseSpTab2Aux (some x) (d :: (as ++ p ++ b)) = _
        simp only [collapseSpTab2Aux, hd, if_true]
        exact hu
    · obtain ⟨u, hu⟩ := ih none
      refine ⟨flushRun2 st ++ d :: u, ?_⟩
      show collapseSpTab2Aux st (d :: (as ++ p ++ b)) = _
      simp only [collapseSpTab2Aux, hd, Bool.false_eq_true, if_false]
      rw [hu]
      simp

theorem infix_collapseSpTab2 {p x : List Char} (hpne : p ≠ [])
    (hp : ∀ c ∈ p, isSpTab c = false) (h : p <:+: x) :
    p <:+: collapseSpTab2 x := by
  obtain ⟨a, b, rfl⟩ := h
  obtain ⟨u, hu⟩ := collapse2Aux_mid p b hpne hp a none
  exact ⟨u, collapseSpTab2Aux none b, hu.symm⟩

theorem infix_dropWhile_of_clean {p x : List Char} (hpne : p ≠ [])
    (hp : ∀ c ∈ p, isJsWs c = false) (h : p <:+: x) :
    p <:+: x.dropWhile isJsWs := by
  obtain ⟨a, b, rfl⟩ := h
  induction a with
  | nil =>
    cases p with
    | nil => exact absurd rfl hpne
    | cons c ps =>
      have hc : isJsWs c = false := hp c (by simp)
      refine ⟨[], b, ?_⟩
      show [] ++ (c :: ps) ++ b = List.dropWhile isJsWs ([] ++ (c :: ps) ++ b)
      simp [List.dropWhile_cons, hc]
  | cons d as ih =>
    show p <:+: List.dropWhile isJsWs (d :: (as ++ p ++ b))
    rw [List.dropWhile_cons]
    split
    · exact ih
    · exact ⟨d :: as, b, by simp⟩

theorem infix_jsTrim {p x : List Char} (hpne : p ≠ [])
    (hp : ∀ c ∈ p, isJsWs c = false) (h : p <:+: x) : p <:+: jsTrim x := by
  have h1 : p <:+: x.dropWhile isJsWs := infix_dropWhile_of_clean hpne hp h
  have h2 : p.reverse <:+: (x.dropWhile isJsWs).reverse :=
    List.reverse_infix.mpr h1
  have h3 : p.reverse <:+: ((x.dropWhile isJsWs).reverse).dropWhile isJsWs :=
    infix_dropWhile_of_clean (by simpa using hpne)
      (fun c hc => hp c (by simpa using hc)) h2
  have h4 : p <:+: (((x.dropWhile isJsWs).reverse).dropWhile isJsWs).reverse := by
    have := List.reverse_infix.mpr h3
    simpa using this
  exact h4

theorem any_replicate_false (n : Nat) (c : Char) (p : Char → Bool)
    (h : p c = false) : (List.replicate n c).any p = false := by
  induction n with
  | zero => rfl
  | succ n ih => simp [List.replicate_succ, h, ih]

/-- The 1024-character path is accepted by the code's validity predicate:
the length guard is `length > 1024`, so exactly 1024 characters pass. -/
theorem bigPath1024_valid : isValidMedia (mediaCandidate bigPath1024.data) = true := by
  have hclean : cleanCandidate bigPath1024.data = bigPath1024.data := by
    unfold cleanCandidate
    have h1 : bigPath1024.data.dropWhile isLeadWrap = bigPath1024.data := by
      show List.dropWhile isLeadWrap ('/' :: List.replicate 1023 'a') = _
      rw [List.dropWhile_cons]
      rw [show isLeadWrap '/' = false from rfl]
      simp only [Bool.false_eq_true, if_false]
      rfl
    rw [h1]
    have h2 : bigPath1024.data.reverse = 'a' :: (List.replicate 1022 'a' ++ ['/']) := by
      show ('/' :: List.replicate 1023 'a').reverse = _
      rw [List.reverse_cons, List.reverse_replicate,
        show (1023 : Nat) = 1022 + 1 from rfl, List.replicate_succ]
      rw [List.cons_append]
    rw [h2, List.dropWhile_cons]
    rw [show isTrailWrap 'a' = false from rfl]
    simp only [Bool.false_eq_true, if_false]
    rw [← h2]
    simp
  have hnorm : mediaCandidate bigPath1024.data = bigPath1024.data := by
    unfold mediaCandidate normalizeMediaSource
    rw [hclean]
    rw [if_neg ?hng]
    case hng =>
      show ¬ ("file://".data.isPrefixOf ('/' :: List.replicate 1023 'a')) = true
      rw [show ("file://".data.isPrefixOf ('/' :: List.replicate 1023 'a')) = false
        from rfl]
      simp
  rw [hnorm]
  have hlen : bigPath1024.data.length = 1024 := by
    show ('/' :: List.replicate 1023 'a').length = 1024
    rw [List.length_cons, List.length_replicate]
  have hany : bigPath1024.data.any isJsWs = false := by
    show ('/' :: List.replicate 1023 'a').any isJsWs = false
    rw [List.any_cons, show isJsWs '/' = false from rfl,
      any_replicate_false 1023 'a' isJsWs rfl]
    rfl
  have hne : bigPath1024.data ≠ [] := by
    show ('/' :: List.replicate 1023 'a') ≠ []
    exact List.cons_ne_nil _ _
  unfold isValidMedia
  rw [hlen, hany]
  rw [show ("/".data.isPrefixOf bigPath1024.data) = true from rfl]
  simp [hne]

theorem infix_append_left {p x l : List Char} (h : p <:+: l) : p <:+: x ++ l := by
  obtain ⟨a, b, rfl⟩ := h
  exact ⟨x ++ a, b, by simp⟩

/-- C5 counterexample: on the line `MEDIA: notaurl` the candidate is invalid,
yet `splitMediaFromOutput` returns empty text — the invalid candidate is
silently dropped, not left untouched; and the 1024-character path (not under
1024 characters) is accepted, since the code's guard is `length > 1024`. -/
theorem C5_counterexample :
    isValidMedia (mediaCandidate "notaurl".data) = false ∧
    splitMediaFromOutput "MEDIA: notaurl" =
      { text := "", mediaUrls := none, mediaUrl := none, audioAsVoice := none } ∧
    bigPath1024.data.length = 1024 ∧
    isValidMedia (mediaCandidate bigPath1024.data) = true := by
  refine ⟨by decide, by decide, ?_, bigPath1024_valid⟩
  show ('/' :: List.replicate 1023 'a').length = 1024
  rw [List.length_cons, List.length_replicate]

/-- C5 (amended): every media reference extracted by `splitMediaFromOutput` is
valid per the code's predicate (http(s) URL or `/`- or `.`-started path, no
whitespace, at most 1024 characters, `file://` stripped); on a line with a
`MEDIA:` match every valid candidate of the payload is extracted; and an
invalid candidate is left in the kept text only when the same line also
yielded a valid candidate — then it survives, as an infix of the rebuilt
line. -/
theorem C5_media_validation :
    (∀ raw l, (splitMediaFromOutput raw).mediaUrls = some l →
       ∀ u ∈ l, isValidMedia u.data = true) ∧
    (∀ line pre payload, findMediaToken [] none line = some (pre, payload) →
       ∀ p ∈ splitWs payload,
         (isValidMedia (mediaCandidate p) = true →
            mediaCandidate p ∈ (processMediaLine line).media) ∧
         (isValidMedia (mediaCandidate p) = false →
            (processMediaLine line).media ≠ [] →
            ∃ kl ∈ (processMediaLine line).kept, p <:+: kl)) := by
  constructor
  · exact fun raw l hl => splitMediaFromOutput_sound raw l hl
  · intro line pre payload hmt p hp
    obtain ⟨hpne, hpclean⟩ := splitWs_tokens payload p hp
    have hcc := classifyParts_complete (splitWs payload) p hp
    have hmed : (processMediaLine line).media = (classifyParts (splitWs payload)).1 := by
      simp only [processMediaLine, hmt]
    constructor
    · intro hv
      rw [hmed]
      exact hcc.1 hv
    · intro hv hmne
      rw [hmed] at hmne
      have hp2 : p ∈ (classifyParts (splitWs payload)).2 := hcc.2 hv
      have h2ne : (classifyParts (splitWs payload)).2 ≠ [] := by
        intro hcon; rw [hcon] at hp2; simp at hp2
      have hinfix0 : p <:+: joinSpace (classifyParts (splitWs payload)).2 :=
        infix_joinSpace hp2
      have hinfix1 : p <:+: pre ++ joinSpace (classifyParts (splitWs payload)).2 :=
        infix_append_left hinfix0
      have hspclean : ∀ c ∈ p, isSpTab c = false := by
        intro c hc
        cases hst : isSpTab c with
        | false => rfl
        | true =>
          have h1 := hpclean c hc
          have h2 := isJsWs_of_isSpTab c hst
          rw [h1] at h2
          exact h2.symm
      have hinfix2 : p <:+: collapseSpTab2
          (pre ++ joinSpace (classifyParts (splitWs payload)).2) :=
        infix_collapseSpTab2 hpne hspclean hinfix1
      have hinfix3 : p <:+: jsTrim (collapseSpTab2
          (pre ++ joinSpace (classifyParts (splitWs payload)).2)) :=
        infix_jsTrim hpne hpclean hinfix2
      have hclne : jsTrim (collapseSpTab2
          (pre ++ joinSpace (classifyParts (splitWs payload)).2)) ≠ [] := by
        intro hcon
        rw [hcon] at hinfix3
        exact hpne (List.eq_nil_of_infix_nil hinfix3)
      have hkept : (processMediaLine line).kept = [jsTrim (collapseSpTab2
          (pre ++ joinSpace (classifyParts (splitWs payload)).2))] := by
        simp only [processMediaLine, hmt]
        simp [hmne, h2ne, hclne]
      rw [hkept]
      exact ⟨_, List.mem_singleton.mpr rfl, hinfix3⟩

/-- C5 witness: on `MEDIA: /ok bad` the valid candidate `/ok` is extracted
(and is valid), while the invalid part `bad` survives inside a kept line. -/
theorem C5_witness :
    isValidMedia "/ok".data = true ∧
    "/ok".data ∈ (processMediaLine "MEDIA: /ok bad".data).media ∧
    (∃ kl ∈ (processMediaLine "MEDIA: /ok bad".data).kept, "bad".data <:+: kl) := by
  refine ⟨?_, ?_, ?_⟩
  · exact C5_media_validation.1 "MEDIA: /ok bad" ["/ok"] (by decide) "/ok" (by decide)
  · have h := (C5_media_validation.2 "MEDIA: /ok bad".data [] "/ok bad".data (by decide)
      "/ok".data (by decide)).1 (by decide)
    have e : mediaCandidate "/ok".data = "/ok".data := by decide
    rw [e] at h
    exact h
  · exact (C5_media_validation.2 "MEDIA: /ok bad".data [] "/ok bad".data (by decide)
      "bad".data (by decide)).2 (by decide) (by decide)

end OpenClaw
